import Mathlib

/-!
# Verification of the account-consolidation core (Accounts-Master)

Shallow embedding of the deduplication/consolidation engine
(`consolidateAccounts` and its helpers) and of the normalizer
(`normalizeAccount` and its validators), translated from the TypeScript
source, together with theorems settling the specification claims.

Modelling conventions:
* JavaScript strings are Lean `String`s; the handful of platform string
  primitives used by the source (`trim`, `toLowerCase`, `split(',')`,
  `split(/\s+/)`, regex tests) are modelled character-exactly on ASCII
  input as recursive functions over `String.data`.
* `Map` objects are association lists with JavaScript `Map` semantics
  (insertion order preserved; `set` on an existing key updates in place).
* `metadata` objects are ordered association lists of string keys to
  values; a value is a string, an array of strings, or the explicit
  `undefined` stored by some assignments.
* `Date` values are integer timestamps; `new Date(x)` is the identity.
-/

namespace AccountsMaster

/-! ## Character and string primitives (models of the JS string API) -/

/-- ASCII lower-casing of one character, the model of `String.toLowerCase`
per character. -/
def lowerChar (c : Char) : Char :=
  if 'A' ≤ c ∧ c ≤ 'Z' then Char.ofNat (c.toNat + 32) else c

/-- Whitespace class of the JS `trim` / `\s` (ASCII part). -/
def isWsChar (c : Char) : Bool :=
  c = ' ' || c = '\t' || c = '\n' || c = '\r' || c.toNat = 11 || c.toNat = 12

/-- Leading-whitespace removal (`trimStart`). -/
def trimLeftL (l : List Char) : List Char := l.dropWhile isWsChar

/-- Trailing-whitespace removal (`trimEnd`). -/
def trimRightL : List Char → List Char
  | [] => []
  | c :: cs =>
    match trimRightL cs with
    | [] => if isWsChar c then [] else [c]
    | r => c :: r

/-- The JS `trim`. -/
def trimL (l : List Char) : List Char := trimRightL (trimLeftL l)

/-- `s.split(',')` on character lists: always returns at least one part. -/
def splitCommaL : List Char → List (List Char)
  | [] => [[]]
  | c :: cs =>
    if c = ',' then [] :: splitCommaL cs
    else
      match splitCommaL cs with
      | [] => [[c]]
      | h :: t => (c :: h) :: t

/-- `parts.join(',')` on character lists. -/
def joinCommaL : List (List Char) → List Char
  | [] => []
  | [x] => x
  | x :: xs => x ++ ',' :: joinCommaL xs

def lowerL (l : List Char) : List Char := l.map lowerChar

/-- `s.trim()`. -/
def trimS (s : String) : String := ⟨trimL s.data⟩

/-- `s.toLowerCase()`. -/
def lowerS (s : String) : String := ⟨lowerL s.data⟩

/-- `s.toLowerCase().trim()` (the link-normalisation used by the dedup). -/
def lowerTrimS (s : String) : String := ⟨trimL (lowerL s.data)⟩

/-- `s.split(',')`. -/
def splitCommaS (s : String) : List String :=
  (splitCommaL s.data).map (fun l => (⟨l⟩ : String))

/-- `parts.join(',')`. -/
def joinCommaS (parts : List String) : String :=
  ⟨joinCommaL (parts.map String.data)⟩

/-- Substring test, the model of JS `String.prototype.includes`. -/
def containsL (l sub : List Char) : Bool :=
  (List.range (l.length + 1)).any (fun i => (l.drop i).take sub.length = sub)

def containsS (s sub : String) : Bool := containsL s.data sub.data

/-- Prefix test (`startsWith`). -/
def isPrefixL : List Char → List Char → Bool
  | [], _ => true
  | _ :: _, [] => false
  | c :: cs, d :: ds => c = d && isPrefixL cs ds

/-- Case-insensitive prefix test (used for the `/^https?:\/\//i` style
regexes). -/
def isPrefixCiL (p l : List Char) : Bool := isPrefixL (lowerL p) (lowerL l)

theorem length_dropWhile_le_aux (p : Char → Bool) (l : List Char) :
    (l.dropWhile p).length ≤ l.length := by
  induction l with
  | nil => simp
  | cons c cs ih =>
    by_cases h : p c
    · simp only [List.dropWhile_cons, h, if_true, List.length_cons]
      omega
    · simp [List.dropWhile_cons, h]

/-- `s.split(/\s+/)`: parts separated by maximal whitespace runs, with the
JS behaviour of a leading/trailing empty part when the string starts/ends
with whitespace, and `[""]` on the empty string. A whitespace character
opens a new (possibly empty) part exactly when it is the last character or
the next one is not whitespace. -/
def splitWsL : List Char → List (List Char)
  | [] => [[]]
  | c :: cs =>
    if isWsChar c then
      match cs with
      | d :: _ =>
        if isWsChar d then splitWsL cs else [] :: splitWsL cs
      | [] => [] :: splitWsL cs
    else
      match splitWsL cs with
      | [] => [[c]]
      | h :: t => (c :: h) :: t

def splitWsS (s : String) : List String :=
  (splitWsL s.data).map (fun l => (⟨l⟩ : String))

/-- `s.split('.')`. -/
def splitDotL : List Char → List (List Char)
  | [] => [[]]
  | c :: cs =>
    if c = '.' then [] :: splitDotL cs
    else
      match splitDotL cs with
      | [] => [[c]]
      | h :: t => (c :: h) :: t

def splitDotS (s : String) : List String :=
  (splitDotL s.data).map (fun l => (⟨l⟩ : String))

/-- Suffix test (`endsWith`). -/
def endsWithL (l suf : List Char) : Bool := isPrefixL suf.reverse l.reverse

def endsWithS (s suf : String) : Bool := endsWithL s.data suf.data

/-- ASCII upper-casing of one character (`toUpperCase` per character). -/
def upperChar (c : Char) : Char :=
  if 'a' ≤ c ∧ c ≤ 'z' then Char.ofNat (c.toNat - 32) else c

/-- `s.charAt(0).toUpperCase() + s.slice(1)`. -/
def capitalizeS (s : String) : String :=
  match s.data with
  | [] => ""
  | c :: cs => ⟨upperChar c :: cs⟩

/-- `s.replace(/\/+$/, '')`: drop the trailing run of slashes. -/
def dropTrailingSlashesL (l : List Char) : List Char :=
  (l.reverse.dropWhile (fun c => c = '/')).reverse

/-- `s.replace(/^https?:\/\//i, '')`. -/
def stripHttpPrefixCiL (l : List Char) : List Char :=
  if isPrefixCiL "https://".data l then l.drop 8
  else if isPrefixCiL "http://".data l then l.drop 7
  else l

/-- `s.replace(/^www\./, '')` (case-sensitive variant). -/
def stripWwwL (l : List Char) : List Char :=
  if isPrefixL "www.".data l then l.drop 4 else l

/-- `s.replace(/^www\./i, '')` (case-insensitive variant). -/
def stripWwwCiL (l : List Char) : List Char :=
  if isPrefixCiL "www.".data l then l.drop 4 else l

/-! ## Metadata objects and JS `Map`s -/

/-- A JS metadata value: a string, an array of strings, or the explicit
`undefined` that some assignments store. -/
inductive MetaValue where
  | str (s : String)
  | arr (ls : List String)
  | undef
deriving DecidableEq, Repr

/-- A metadata object: an insertion-ordered association list with unique
keys (JS object property order). -/
abbrev Obj := List (String × MetaValue)

/-- Raw property read: `none` when the key is absent. -/
def Obj.find? (o : Obj) (k : String) : Option MetaValue :=
  match List.find? (fun p => p.1 = k) o with
  | some p => some p.2
  | none => none

/-- `k in o` (the JS `in` operator: `true` even for `undefined` values). -/
def Obj.hasKey (o : Obj) (k : String) : Bool := (Obj.find? o k).isSome

/-- Property access `o.k` / `o[k]`: absent keys and explicit `undefined`
both give `undefined`. -/
def Obj.getv (o : Obj) (k : String) : Option MetaValue :=
  match Obj.find? o k with
  | some .undef => none
  | v => v

/-- Property assignment `o[k] = v`: updates in place, or appends a new key
(JS property insertion order). -/
def Obj.set (o : Obj) (k : String) (v : MetaValue) : Obj :=
  match o with
  | [] => [(k, v)]
  | (k', v') :: rest =>
    if k' = k then (k, v) :: rest else (k', v') :: Obj.set rest k v

/-- JS truthiness of a possibly-absent metadata value: `undefined`, `null`
and `''` are falsy; arrays (even empty) are truthy. -/
def truthyMV : Option MetaValue → Bool
  | none => false
  | some .undef => false
  | some (.str s) => s ≠ ""
  | some (.arr _) => true

/-- `a || b` on metadata values. -/
def orMV (a b : Option MetaValue) : Option MetaValue :=
  if truthyMV a then a else b

/-- `String(v)` for a metadata value (JS array coercion joins with `,`). -/
def metaToString : MetaValue → String
  | .str s => s
  | .arr ls => joinCommaS ls
  | .undef => "undefined"

/-! ## part_013 helpers -/

/-- STEP 1 — HARD EMPTY DETECTION (`isEmpty`): `""`, `"-"`, `"none"`,
`"n/a"` after trimming and lower-casing. -/
def isEmptyS (value : String) : Bool :=
  let trimmed := lowerS (trimS value)
  trimmed = "" || trimmed = "-" || trimmed = "none" || trimmed = "n/a"

/-- `isEmpty` applied to a possibly-absent metadata value (`null` and
`undefined` are empty; other values are coerced by `String(...)`). -/
def isEmptyMV : Option MetaValue → Bool
  | none => true
  | some .undef => true
  | some v => isEmptyS (metaToString v)

/-- `normalizeEmpty`: empty values collapse to `""`, others are trimmed. -/
def normalizeEmptyS (value : String) : String :=
  if isEmptyS value then "" else trimS value

/-- True when the first character starts a scheme `xyz:` (letter followed
by letters/digits/`+`/`.`/`-` up to a colon). -/
def schemeRestL : List Char → Bool
  | [] => false
  | d :: ds =>
    if d = ':' then true
    else if d.isAlpha || d.isDigit || d = '+' || d = '.' || d = '-' then schemeRestL ds
    else false

def hasSchemeL : List Char → Bool
  | [] => false
  | c :: cs => c.isAlpha && schemeRestL cs

/-- Suffix after the last `'@'`. -/
def afterLastAtL (l : List Char) : List Char :=
  (l.reverse.takeWhile (fun c => c ≠ '@')).reverse

/-- Model of the platform primitive `new URL(link).hostname` on the inputs
this code feeds it: leading/trailing whitespace stripped; an
`http`/`https` URL yields its lower-cased host (authority up to
`/?#\`, user-info and port stripped), failing — the constructor throws —
when that host is empty or contains whitespace; any other scheme parses
with an empty hostname; a string with no scheme fails to parse. -/
def urlHostname? (link : String) : Option String :=
  let s := trimL link.data
  if isPrefixCiL "https://".data s || isPrefixCiL "http://".data s then
    let rest := if isPrefixCiL "https://".data s then s.drop 8 else s.drop 7
    let auth := rest.takeWhile (fun c => !(c = '/' || c = '?' || c = '#' || c = '\\'))
    let host0 := if auth.contains '@' then afterLastAtL auth else auth
    let host := host0.takeWhile (fun c => c ≠ ':')
    if host.isEmpty || host.any isWsChar then none
    else some ⟨lowerL host⟩
  else if hasSchemeL s then some "" else none

/-- `extractSourceFromLink`: domain of the URL mapped to a source label. -/
def extractSourceFromLink (link : Option MetaValue) : String :=
  if !truthyMV link || isEmptyMV link then "Unknown"
  else
    -- Array unwrap (`link = link[0] || ''`), then the string/typeof guard.
    let s : String :=
      match link with
      | some (.arr ls) => ls.headD ""
      | some (.str s) => s
      | _ => ""
    if s = "" then "Unknown"
    else
      match urlHostname? s with
      | none => "Unknown"
      | some hostname =>
        if containsS hostname "gmail.com" then "Gmail"
        else if containsS hostname "appfolio.com" then "Allied"
        else if containsS hostname "crimson.com" then "Crimson"
        else if containsS hostname "domini.com" then "DominI"
        else
          let parts := splitDotS hostname
          if parts.length ≥ 2 then
            capitalizeS (parts.getD (parts.length - 2) "")
          else hostname

/-- `s.replace(/\s+/g, ' ')`: collapse every whitespace run to one space
(the space is emitted at the first character of each run). -/
def collapseWsAux : List Char → Bool → List Char
  | [], _ => []
  | c :: cs, inRun =>
    if isWsChar c then
      if inRun then collapseWsAux cs true else ' ' :: collapseWsAux cs true
    else c :: collapseWsAux cs false

def collapseWsL (l : List Char) : List Char := collapseWsAux l false

/-- The alternatives of `/\s+(inc|llc|ltd|corp|corporation|company|co)$/i`. -/
def businessSuffixes : List String := ["inc", "llc", "ltd", "corp", "corporation", "company", "co"]

/-- `s.replace(/\s+(inc|llc|ltd|corp|corporation|company|co)$/i, '')` on an
already lower-cased string: when the string ends in whitespace followed by
one of the suffix words, that whitespace run and word are removed. -/
def stripBusinessSuffixL (l : List Char) : List Char :=
  match businessSuffixes.find? (fun w =>
      endsWithL l w.data &&
      (match (l.take (l.length - w.data.length)).getLast? with
       | some c => isWsChar c
       | none => false)) with
  | some w => trimRightL (l.take (l.length - w.data.length))
  | none => l

/-- `\w` (word character). -/
def isWordChar (c : Char) : Bool := c.isAlpha || c.isDigit || c = '_'

/-- `normalizeServiceNameForMatching`: lower-case, strip business
suffixes, drop special characters other than spaces/hyphens, collapse
whitespace. -/
def normalizeServiceNameForMatching (serviceName : String) : String :=
  if serviceName = "" || isEmptyS serviceName then ""
  else
    let n := trimL (lowerL serviceName.data)
    let n := stripBusinessSuffixL n
    let n := n.filter (fun c => isWordChar c || isWsChar c || c = '-')
    ⟨trimL (collapseWsL n)⟩

def commonWords : List String :=
  ["the", "and", "for", "with", "app", "service", "portal", "account"]

/-- First-seen deduplication: the iteration order of `new Set(xs)`. -/
def uniqAux : List String → List String → List String
  | [], _ => []
  | x :: xs, seen =>
    if seen.contains x then uniqAux xs seen else x :: uniqAux xs (x :: seen)

def uniqS (xs : List String) : List String := uniqAux xs []

/-- `calculateStringSimilarity`: Jaccard index over the stopword-filtered
word sets, with the source's special cases, as an exact rational. -/
def calculateStringSimilarity (str1 str2 : String) : ℚ :=
  if str1 = str2 then 1
  else if str1.data.length = 0 || str2.data.length = 0 then 0
  else
    let words1 := (splitWsS str1).filter (fun w => !commonWords.contains w)
    let words2 := (splitWsS str2).filter (fun w => !commonWords.contains w)
    if words1.length = 0 && words2.length = 0 then 1
    else
      let set1 := uniqS words1
      let set2 := uniqS words2
      let inter := set1.filter (fun x => set2.contains x)
      let uni := uniqS (set1 ++ set2)
      if uni.length = 0 then 0
      else (inter.length : ℚ) / (uni.length : ℚ)

/-- `areServicesSimilar`: the fuzzy service-name matching ladder. -/
def areServicesSimilar (service1 service2 : String) : Bool :=
  if isEmptyS service1 || isEmptyS service2 then false
  else
    let norm1 := normalizeServiceNameForMatching service1
    let norm2 := normalizeServiceNameForMatching service2
    if norm1 = norm2 then true
    else if (containsS norm1 norm2 || containsS norm2 norm1) &&
            min norm1.data.length norm2.data.length ≥ 4 then true
    else if calculateStringSimilarity norm1 norm2 > (85 : ℚ) / 100 then true
    else false

/-- `[a-zA-Z0-9-]`. -/
def isCls1 (c : Char) : Bool := c.isAlpha || c.isDigit || c = '-'

/-- `[a-zA-Z0-9.-]`. -/
def isCls2 (c : Char) : Bool := isCls1 c || c = '.'

/-- Leftmost match of `/([a-zA-Z0-9-]+\.[a-zA-Z0-9.-]+)/`: at each start
position in turn, a maximal run of the first class followed by a dot and a
non-empty maximal run of the second class. -/
def domainMatchL : List Char → Option (List Char)
  | [] => none
  | c :: cs =>
    let attempt : Option (List Char) :=
      if isCls1 c then
        let run := (c :: cs).takeWhile isCls1
        match (c :: cs).dropWhile isCls1 with
        | '.' :: r2 =>
          let run2 := r2.takeWhile isCls2
          if run2.isEmpty then none else some (run ++ '.' :: run2)
        | _ => none
      else none
    match attempt with
    | some m => some m
    | none => domainMatchL cs

/-- `normalizeLinkForMatching`: trailing slashes and `www.` removed, the
hostname extracted (by URL parsing, or by pattern matching when the URL
constructor throws). -/
def normalizeLinkForMatching (link : String) : String :=
  if link = "" || isEmptyS link then ""
  else
    let n := trimL link.data
    let n := dropTrailingSlashesL n
    match urlHostname? ⟨n⟩ with
    | some hostname => ⟨stripWwwL (lowerL hostname.data)⟩
    | none =>
      let m := stripHttpPrefixCiL n
      let m := stripWwwCiL m
      let m := dropTrailingSlashesL m
      match domainMatchL m with
      | some d => ⟨stripWwwL (lowerL d)⟩
      | none => ⟨lowerL m⟩

/-- `extractBaseDomain`: the second-to-last dot-separated label. -/
def extractBaseDomain (domain : String) : String :=
  let parts := splitDotS domain
  if parts.length ≥ 2 then parts.getD (parts.length - 2) ""
  else
    match parts.headD "" with
    | "" => domain
    | p => p

/-- `getTLD`: the last dot-separated label (or `""`). -/
def getTLD (domain : String) : String :=
  let parts := splitDotS domain
  if parts.length ≥ 2 then parts.getD (parts.length - 1) "" else ""

/-- `areDomainsRelated`: same normalized hostname, same base domain with
different TLDs among com/org/io, or subdomain relationship. -/
def areDomainsRelated (domain1 domain2 : String) : Bool :=
  if isEmptyS domain1 || isEmptyS domain2 then false
  else
    let n1 := normalizeLinkForMatching domain1
    let n2 := normalizeLinkForMatching domain2
    if n1 = n2 then true
    else
      let b1 := extractBaseDomain n1
      let b2 := extractBaseDomain n2
      let t1 := getTLD n1
      let t2 := getTLD n2
      if b1 = b2 && b1.data.length ≥ 3 &&
         (t1 ≠ t2 &&
          (t1 = "com" || t1 = "org" || t1 = "io" ||
           t2 = "com" || t2 = "org" || t2 = "io")) then true
      else if (containsS n1 b2 || containsS n2 b1) &&
              (endsWithS n1 ("." ++ b2 ++ "." ++ t1) ||
               endsWithS n2 ("." ++ b1 ++ "." ++ t2) ||
               n1 = b2 ++ "." ++ t1 || n2 = b1 ++ "." ++ t2) then true
      else false

/-- `parts.slice(-2).join('.')`. -/
def lastTwoJoinDot (parts : List String) : String :=
  match parts.drop (parts.length - 2) with
  | [a, b] => a ++ "." ++ b
  | [a] => a
  | _ => ""

/-- `extractDomainFromLink`: base domain + TLD of the normalized link. -/
def extractDomainFromLink (link : String) : String :=
  let n := normalizeLinkForMatching link
  if n = "" then ""
  else
    let parts := splitDotS n
    if parts.length ≥ 2 then lastTwoJoinDot parts
    else n

/-- `linkMatchesAnyInList`: does a single link match any link of a
comma-separated list or array (exact normalized, same extracted domain, or
related domains). -/
def linkMatchesAnyInList (singleLink : String) (linkList : Option MetaValue) : Bool :=
  if singleLink = "" || isEmptyS singleLink then false
  else if !truthyMV linkList then false
  else
    let links : List String :=
      match linkList with
      | some (.arr ls) => ls
      | some (.str s) => ((splitCommaS s).map trimS).filter (fun l => l.data.length > 0)
      | _ => []
    if links.isEmpty then false
    else
      let nsl := normalizeLinkForMatching singleLink
      let sd := extractDomainFromLink nsl
      links.any (fun link =>
        !isEmptyS link &&
        (let nl := normalizeLinkForMatching link
         let ld := extractDomainFromLink nl
         nsl = nl || sd = ld || areDomainsRelated singleLink link))

/-- `createMergeKey`. The `Date.now()` / `Math.random()` fallbacks of the
blank branches are modelled by fixed tokens: those platform calls are only
reached when no account id is supplied, and every call site in
`consolidateAccounts` passes a non-empty one together with non-blank
credentials. -/
def createMergeKey (providerEmail password serviceName serviceLink : String)
    (accountId : Option String) : String :=
  let idTok : String := match accountId with
    | some i => if i ≠ "" then i else "DATE_NOW"
    | none => "DATE_NOW"
  let normalizedEmail := lowerS (normalizeEmptyS providerEmail)
  let normalizedPassword := normalizeEmptyS password
  let normalizedService := lowerS (normalizeEmptyS serviceName)
  let linkDomain := extractDomainFromLink serviceLink
  if isEmptyS normalizedEmail || isEmptyS normalizedPassword then
    if !isEmptyS normalizedService then
      "_BLANK_" ++ normalizedService ++ "|" ++ idTok
    else
      "_EMPTY_" ++ idTok ++ "-RANDOM"
  else
    let matchKey := if !isEmptyS normalizedService then normalizedService else linkDomain
    normalizedEmail ++ "|" ++ normalizedPassword ++ "|" ++ matchKey

/-- `getPasswordStrengthPriority` (lower = worse = kept). -/
def getPasswordStrengthPriority (strength : Option MetaValue) : Nat :=
  match strength with
  | some (.str "weak") => 1
  | some (.str "moderate") => 2
  | some (.str "strong") => 3
  | _ => 4

/-- `getWorstPasswordStrength`. -/
def getWorstPasswordStrength (s1 s2 : Option MetaValue) : Option MetaValue :=
  if getPasswordStrengthPriority s1 ≤ getPasswordStrengthPriority s2 then s1 else s2

/-- `getRecommendationPriority`. A non-string value here is outside the
declared `Record<string, string>` metadata type, so it takes the default
priority in the model. -/
def getRecommendationPriority (recommendation : Option MetaValue) : Nat :=
  match recommendation with
  | some (.str s) =>
    if s = "" then 4
    else
      let r := lowerS s
      if containsS r "weak" || containsS r "poor" then 1
      else if containsS r "moderate" then 2
      else if containsS r "strong" || containsS r "good" then 3
      else 4
  | _ => 4

/-- `getWorstRecommendation`. -/
def getWorstRecommendation (r1 r2 : Option MetaValue) : Option MetaValue :=
  if getRecommendationPriority r1 ≤ getRecommendationPriority r2 then r1 else r2

/-- String items of one side of `combineLinkStrings`: arrays keep their
non-empty, non-`isEmpty` string elements; strings are comma-split, trimmed
and filtered; falsy values contribute nothing. -/
def linkItems : Option MetaValue → List String
  | some (.arr ls) => ls.filter (fun l => l ≠ "" && !isEmptyS l)
  | some (.str s) =>
    if s = "" then []
    else ((splitCommaS s).map trimS).filter (fun l => !isEmptyS l)
  | _ => []

/-- The deduplication loop of `combineLinkStrings`: first-seen wins,
case-insensitive on the lower-cased trimmed link; the original casing
(trimmed) is kept, in order. -/
def dedupLinks : List String → List String → List String
  | [], _ => []
  | link :: rest, seen =>
    let normalized := lowerTrimS link
    if !isEmptyS link && !seen.contains normalized then
      trimS link :: dedupLinks rest (normalized :: seen)
    else dedupLinks rest seen

/-- `combineLinkStrings`: combine two link values into one deduplicated
comma-joined string. -/
def combineLinkStrings (link1 link2 : Option MetaValue) : String :=
  joinCommaS (dedupLinks (linkItems link1 ++ linkItems link2) [])

/-! ## Accounts and the merge policy -/

/-- A discovered account (`DiscoveredAccount`), extended with the
`DeduplicatedAccount` fields, which are `none` on raw records.
`discoveredAt` dates are integer timestamps (`new Date(x)` is the
identity on them). -/
structure Account where
  id : String
  service : String
  accountEmail : String
  source : String
  discoveredAt : Int
  metadata : Option Obj
  allSources : Option (List String) := none
  firstDiscoveredAt : Option Int := none
  lastDiscoveredAt : Option Int := none
deriving DecidableEq, Repr

/-- `account.metadata?.k`. -/
def mdGet (a : Account) (k : String) : Option MetaValue :=
  match a.metadata with
  | none => none
  | some o => Obj.getv o k

/-- `existing.metadata?.k` on an optional object. -/
def mdGetO (em : Option Obj) (k : String) : Option MetaValue :=
  match em with
  | none => none
  | some o => Obj.getv o k

/-- `(v || '')` followed by the `String(...)` coercion every later use
applies (`isEmpty`, `normalizeEmpty`, template keys): arrays join with
commas, absent values give `""`. -/
def mvToKeyString : Option MetaValue → String
  | none => ""
  | some .undef => ""
  | some (.str s) => s
  | some (.arr ls) => joinCommaS ls

/-- Store an optional value produced by a guard that has established it is
non-empty (hence present). -/
def setIfSome (m : Obj) (k : String) (v : Option MetaValue) : Obj :=
  match v with
  | some mv => Obj.set m k mv
  | none => m

/-- Assignment of a possibly-`undefined` value (`o[k] = v` stores the
explicit `undefined`). -/
def setOrUndef (m : Obj) (k : String) (v : Option MetaValue) : Obj :=
  Obj.set m k (v.getD .undef)

/-- The metadata keys handled individually by the merge, excluded from the
catch-all loop. -/
def mergeExcludedKeys : List String :=
  ["link", "change-password", "changePassword", "delete-account", "deleteAccount",
   "security-settings", "securitySettings", "username", "password",
   "passwordStrength", "passwordRecommendation", "platform"]

/-- `mergeAccountsWithLinks`: merges two accounts, combining links,
preserving existing username/password, keeping the worst password
strength/recommendation, and recomputing the source from the combined
link. The `existing` side is always a `DeduplicatedAccount` at the call
sites, so its dedup fields are present; `getD` defaults only keep the
model total. -/
def mergeAccountsWithLinks (existing incoming : Account) : Account :=
  let mergedSources0 := existing.allSources.getD []
  let mergedSources1 :=
    match incoming.allSources with
    | some srcs => srcs.foldl (fun acc s => if acc.contains s then acc else acc ++ [s]) mergedSources0
    | none => mergedSources0
  let mergedSources :=
    if mergedSources1.contains incoming.source then mergedSources1
    else mergedSources1 ++ [incoming.source]
  let incomingDate := incoming.discoveredAt
  let exFirst := existing.firstDiscoveredAt.getD existing.discoveredAt
  let exLast := existing.lastDiscoveredAt.getD existing.discoveredAt
  let firstD := if incomingDate < exFirst then incomingDate else exFirst
  let lastD := if incomingDate > exLast then incomingDate else exLast
  let em := existing.metadata
  let base : Obj := em.getD []
  let mergedMetadata : Obj :=
    match incoming.metadata with
    | none => base
    | some im =>
      let m := base
      let combinedServiceLink := combineLinkStrings (mdGetO em "link") (Obj.getv im "link")
      let m := if combinedServiceLink ≠ "" then Obj.set m "link" (.str combinedServiceLink) else m
      let ecp := orMV (mdGetO em "change-password") (mdGetO em "changePassword")
      let icp := orMV (Obj.getv im "change-password") (Obj.getv im "changePassword")
      let ccp := combineLinkStrings ecp icp
      let m := if ccp ≠ "" then Obj.set m "change-password" (.str ccp) else m
      let eda := orMV (mdGetO em "delete-account") (mdGetO em "deleteAccount")
      let ida := orMV (Obj.getv im "delete-account") (Obj.getv im "deleteAccount")
      let cda := combineLinkStrings eda ida
      let m := if cda ≠ "" then Obj.set m "delete-account" (.str cda) else m
      let ess := orMV (mdGetO em "security-settings") (mdGetO em "securitySettings")
      let iss := orMV (Obj.getv im "security-settings") (Obj.getv im "securitySettings")
      let css := combineLinkStrings ess iss
      let m := if css ≠ "" then Obj.set m "security-settings" (.str css) else m
      let m :=
        if !Obj.hasKey m "username" || isEmptyMV (Obj.getv m "username") then
          if em.isSome && !isEmptyMV (mdGetO em "username") then
            setIfSome m "username" (mdGetO em "username")
          else if !isEmptyMV (Obj.getv im "username") then
            setIfSome m "username" (Obj.getv im "username")
          else m
        else m
      let m :=
        if !Obj.hasKey m "password" || isEmptyMV (Obj.getv m "password") then
          if em.isSome && !isEmptyMV (mdGetO em "password") then
            setIfSome m "password" (mdGetO em "password")
          else if !isEmptyMV (Obj.getv im "password") then
            setIfSome m "password" (Obj.getv im "password")
          else m
        else m
      let ws := getWorstPasswordStrength (mdGetO em "passwordStrength") (Obj.getv im "passwordStrength")
      let m := setOrUndef m "passwordStrength" ws
      let wr := getWorstRecommendation (mdGetO em "passwordRecommendation")
        (Obj.getv im "passwordRecommendation")
      let m := setOrUndef m "passwordRecommendation" wr
      let existingPlatform := orMV (mdGetO em "platform") (some (.str "Unknown"))
      let incomingPlatform := orMV (Obj.getv im "platform") (some (.str "Unknown"))
      let m := setOrUndef m "platform"
        (orMV (orMV existingPlatform incomingPlatform) (some (.str "Unknown")))
      im.foldl (fun m kv =>
        let key := kv.1
        if mergeExcludedKeys.contains key then m
        else
          let incomingValue := Obj.getv im key
          if !Obj.hasKey m key || isEmptyMV (Obj.getv m key) then
            if !isEmptyMV incomingValue then setIfSome m key incomingValue
            else if em.isSome && !isEmptyMV (mdGetO em key) then setIfSome m key (mdGetO em key)
            else m
          else m) m
  let combinedLink := orMV (Obj.getv mergedMetadata "link") (some (.str ""))
  let recomputedSource := extractSourceFromLink combinedLink
  let mergedService := if !isEmptyS incoming.service then incoming.service else existing.service
  let mergedAccountEmail :=
    if !isEmptyS incoming.accountEmail then incoming.accountEmail else existing.accountEmail
  { existing with
    service := mergedService
    accountEmail := mergedAccountEmail
    source := recomputedSource
    metadata := some mergedMetadata
    allSources := some mergedSources
    firstDiscoveredAt := some firstD
    lastDiscoveredAt := some lastD
    id := existing.id }

/-! ## The consolidation engine -/

/-- A JS `Map<string, Account>`: insertion-ordered, unique keys; `set` on
an existing key updates in place. -/
abbrev AccountMap := List (String × Account)

def AccountMap.get? (m : AccountMap) (k : String) : Option Account :=
  match List.find? (fun p => p.1 = k) m with
  | some p => some p.2
  | none => none

def AccountMap.set (m : AccountMap) (k : String) (v : Account) : AccountMap :=
  match m with
  | [] => [(k, v)]
  | (k', v') :: rest =>
    if k' = k then (k, v) :: rest else (k', v') :: AccountMap.set rest k v

def AccountMap.del (m : AccountMap) (k : String) : AccountMap :=
  m.filter (fun p => p.1 ≠ k)

/-- First link of a link value (`linkValue[0] || ''` for arrays,
`linkValue.split(',')[0].trim()` for strings, `''` when falsy). -/
def firstLinkOf (lv : Option MetaValue) : String :=
  if !truthyMV lv then ""
  else
    match lv with
    | some (.arr ls) => ls.headD ""
    | some (.str s) => trimS ((splitCommaS s).headD "")
    | _ => ""

/-- Wrap a raw account as a fresh `DeduplicatedAccount`; `source'` is the
recomputed source for non-blank rows (blank rows keep their source). -/
def dedupedOf (account : Account) (sourceOverride : Option String) : Account :=
  { account with
    source := sourceOverride.getD account.source
    allSources := some [account.source]
    firstDiscoveredAt := some account.discoveredAt
    lastDiscoveredAt := some account.discoveredAt }

/-- State of the first pass: the merge map, the blank-credential buckets
(keyed by normalized service name, insertion-ordered), and the running
merge count. -/
structure P1State where
  mergeMap : AccountMap
  blankRows : List (String × List Account)
  mergedCount : Nat
deriving Repr

/-- Append a blank row to its service bucket, creating the bucket at the
end on first use. -/
def bucketPush (buckets : List (String × List Account)) (k : String) (v : Account) :
    List (String × List Account) :=
  match buckets with
  | [] => [(k, [v])]
  | (k', vs) :: rest =>
    if k' = k then (k', vs ++ [v]) :: rest else (k', vs) :: bucketPush rest k v

/-- The composite `shouldMerge` test of the first pass's PRIORITY-2 scan
(smart matching against one stored account). -/
def p1ScanShouldMerge (normalizedEmail normalizedPassword normalizedService
    serviceName serviceLink : String) (acc : Account) : Bool :=
  let accEmail := lowerS (normalizeEmptyS acc.accountEmail)
  let accPassword := normalizeEmptyS (mvToKeyString (mdGet acc "password"))
  if accEmail ≠ normalizedEmail || accPassword ≠ normalizedPassword then false
  else
    let accService := lowerS (normalizeEmptyS acc.service)
    let accLinkStr := firstLinkOf (mdGet acc "link")
    let normalizedLink1 := normalizeLinkForMatching serviceLink
    let normalizedLink2 := normalizeLinkForMatching accLinkStr
    let domain1 := extractDomainFromLink normalizedLink1
    let domain2 := extractDomainFromLink normalizedLink2
    let sm1 :=
      if !isEmptyS normalizedService && !isEmptyS accService then
        normalizedService = accService || areServicesSimilar serviceName acc.service
      else false
    let sm2 :=
      if !sm1 && !isEmptyS serviceLink then
        linkMatchesAnyInList serviceLink (mdGet acc "link")
      else sm1
    let sm3 :=
      if !sm2 && !isEmptyS domain1 && !isEmptyS domain2 then
        domain1 = domain2 || areDomainsRelated serviceLink accLinkStr
      else sm2
    let sm4 :=
      if !sm3 && !isEmptyS normalizedService && !isEmptyS accService then
        normalizedService = accService && (domain1 = domain2 || isEmptyS domain1 || isEmptyS domain2)
      else sm3
    if !sm4 then
      normalizedService = accService && domain1 = domain2 && !isEmptyS domain1
    else sm4

/-- One account of the first pass: bucket blank-credential rows, otherwise
find a mergeable stored account (exact key, smart scan, link-domain key)
and merge, else insert a fresh entry. -/
def pass1Step (st : P1State) (account : Account) : P1State :=
  if account.id = "" then st
  else
    let providerEmail := account.accountEmail
    let password := mvToKeyString (mdGet account "password")
    let serviceName := account.service
    let linkValue := mdGet account "link"
    let serviceLink := firstLinkOf linkValue
    let hasEmptyCredentials := isEmptyS providerEmail || isEmptyS password
    if hasEmptyCredentials && !isEmptyS serviceName then
      let serviceKey := lowerS (normalizeEmptyS serviceName)
      { st with blankRows := bucketPush st.blankRows serviceKey (dedupedOf account none) }
    else if hasEmptyCredentials then st
    else
      let normalizedEmail := lowerS (normalizeEmptyS providerEmail)
      let normalizedPassword := normalizeEmptyS password
      let normalizedService := lowerS (normalizeEmptyS serviceName)
      let serviceBasedKey :=
        normalizedEmail ++ "|" ++ normalizedPassword ++ "|" ++ normalizedService
      -- PRIORITY 1: exact service-based key, then a scan for an exact or
      -- fuzzy service match (or a link match) under the same credentials.
      let found1 : Option (String × Account × String) :=
        if !isEmptyS normalizedService then
          match AccountMap.get? st.mergeMap serviceBasedKey with
          | some acc => some (serviceBasedKey, acc, serviceBasedKey)
          | none =>
            match List.find? (fun kv =>
                let acc := kv.2
                let accEmail := lowerS (normalizeEmptyS acc.accountEmail)
                let accPassword := normalizeEmptyS (mvToKeyString (mdGet acc "password"))
                let accService := lowerS (normalizeEmptyS acc.service)
                (accEmail = normalizedEmail && accPassword = normalizedPassword &&
                 accService = normalizedService) ||
                (accEmail = normalizedEmail && accPassword = normalizedPassword &&
                 ((accService = normalizedService || areServicesSimilar serviceName acc.service) ||
                  (!isEmptyS serviceLink && linkMatchesAnyInList serviceLink (mdGet acc "link")))))
                st.mergeMap with
            | some kv => some (kv.1, kv.2, serviceBasedKey)
            | none => none
        else none
      -- PRIORITY 2: smart matching over all stored accounts.
      let found2 : Option (String × Account × String) :=
        match found1 with
        | some f => some f
        | none =>
          match List.find? (fun kv =>
              p1ScanShouldMerge normalizedEmail normalizedPassword normalizedService
                serviceName serviceLink kv.2) st.mergeMap with
          | some kv =>
            let mergeKeyToUse :=
              if !isEmptyS normalizedService then serviceBasedKey
              else if !isEmptyS serviceLink then
                let linkDomain := extractDomainFromLink serviceLink
                if !isEmptyS linkDomain then
                  normalizedEmail ++ "|" ++ normalizedPassword ++ "|" ++ linkDomain
                else kv.1
              else kv.1
            some (kv.1, kv.2, mergeKeyToUse)
          | none => none
      -- PRIORITY 3: link-domain-based key.
      let found3 : Option (String × Account × String) :=
        match found2 with
        | some f => some f
        | none =>
          if !isEmptyS serviceLink then
            let linkDomain := extractDomainFromLink serviceLink
            if !isEmptyS linkDomain then
              let linkBasedKey :=
                normalizedEmail ++ "|" ++ normalizedPassword ++ "|" ++ linkDomain
              match AccountMap.get? st.mergeMap linkBasedKey with
              | some acc => some (linkBasedKey, acc, linkBasedKey)
              | none => none
            else none
          else none
      match found3 with
      | none =>
        let mergeKeyToUse :=
          if !isEmptyS normalizedService then serviceBasedKey
          else if !isEmptyS serviceLink then
            let linkDomain := extractDomainFromLink serviceLink
            if !isEmptyS linkDomain then
              normalizedEmail ++ "|" ++ normalizedPassword ++ "|" ++ linkDomain
            else createMergeKey providerEmail password serviceName serviceLink (some account.id)
          else createMergeKey providerEmail password serviceName serviceLink (some account.id)
        let recomputedSource :=
          extractSourceFromLink (if serviceLink ≠ "" then some (.str serviceLink) else linkValue)
        { st with
          mergeMap := AccountMap.set st.mergeMap mergeKeyToUse
            (dedupedOf account (some recomputedSource)) }
      | some (existingKey, existing, mergeKeyToUse) =>
        let merged := mergeAccountsWithLinks existing account
        let m :=
          if existingKey ≠ mergeKeyToUse then AccountMap.del st.mergeMap existingKey
          else st.mergeMap
        { st with
          mergeMap := AccountMap.set m mergeKeyToUse merged
          mergedCount := st.mergedCount + 1 }

/-- State of the second (reconciliation) pass. -/
structure P2State where
  mergeMap : AccountMap
  processedIds : List String
  mergedCount : Nat
deriving Repr

/-- The `shouldMerge` test of the second pass against one snapshot
account. -/
def p2ShouldMerge (normalizedEmail normalizedPassword normalizedService
    serviceName serviceLink : String) (mergedAcc : Account) : Bool :=
  let mergedEmail := lowerS (normalizeEmptyS mergedAcc.accountEmail)
  let mergedPassword := normalizeEmptyS (mvToKeyString (mdGet mergedAcc "password"))
  if mergedEmail ≠ normalizedEmail || mergedPassword ≠ normalizedPassword then false
  else
    let mergedService := lowerS (normalizeEmptyS mergedAcc.service)
    let mergedLinkStr := firstLinkOf (mdGet mergedAcc "link")
    let sm1 :=
      if !isEmptyS normalizedService && !isEmptyS mergedService then
        normalizedService = mergedService || areServicesSimilar serviceName mergedAcc.service
      else false
    let sm2 :=
      if !sm1 && !isEmptyS serviceLink then
        linkMatchesAnyInList serviceLink (mdGet mergedAcc "link")
      else sm1
    let normalizedLink1 := normalizeLinkForMatching serviceLink
    let normalizedLink2 := normalizeLinkForMatching mergedLinkStr
    let domain1 := extractDomainFromLink normalizedLink1
    let domain2 := extractDomainFromLink normalizedLink2
    let sm3 :=
      if !sm2 && !isEmptyS domain1 && !isEmptyS domain2 then
        domain1 = domain2 || areDomainsRelated serviceLink mergedLinkStr
      else sm2
    if !sm3 && !isEmptyS normalizedService && !isEmptyS mergedService then
      normalizedService = mergedService && domain1 = domain2 && !isEmptyS domain1
    else sm3

/-- One account of the second pass: accounts not yet placed are re-checked
against the snapshot of the first pass's merged list; on a match the live
entry with the snapshot account's id is replaced by a merge with the
(possibly stale) snapshot value; otherwise the account is inserted as a
new entry — silently dropped when its key is empty or already taken. -/
def pass2Step (snapshot : List Account) (st : P2State) (account : Account) : P2State :=
  if account.id = "" then st
  else if st.processedIds.contains account.id then st
  else
    let providerEmail := account.accountEmail
    let password := mvToKeyString (mdGet account "password")
    let serviceName := account.service
    let linkValue := mdGet account "link"
    let serviceLink := firstLinkOf linkValue
    let hasEmptyCredentials := isEmptyS providerEmail || isEmptyS password
    if hasEmptyCredentials then st
    else
      let normalizedEmail := lowerS (normalizeEmptyS providerEmail)
      let normalizedPassword := normalizeEmptyS password
      let normalizedService := lowerS (normalizeEmptyS serviceName)
      let hit : Option (String × Account) :=
        match List.find? (fun mergedAcc =>
            p2ShouldMerge normalizedEmail normalizedPassword normalizedService
              serviceName serviceLink mergedAcc &&
            (List.find? (fun kv => kv.2.id = mergedAcc.id) st.mergeMap).isSome) snapshot with
        | some mergedAcc =>
          match List.find? (fun kv => kv.2.id = mergedAcc.id) st.mergeMap with
          | some kv => some (kv.1, mergedAcc)
          | none => none
        | none => none
      match hit with
      | some (mergeKey, mergedAcc) =>
        { st with
          mergeMap := AccountMap.set st.mergeMap mergeKey (mergeAccountsWithLinks mergedAcc account)
          processedIds := st.processedIds ++ [account.id]
          mergedCount := st.mergedCount + 1 }
      | none =>
        let recomputedSource :=
          extractSourceFromLink (if serviceLink ≠ "" then some (.str serviceLink) else linkValue)
        let newMergeKey :=
          if !isEmptyS normalizedService then
            normalizedEmail ++ "|" ++ normalizedPassword ++ "|" ++ normalizedService
          else if !isEmptyS serviceLink then
            let linkDomain := extractDomainFromLink serviceLink
            if !isEmptyS linkDomain then
              normalizedEmail ++ "|" ++ normalizedPassword ++ "|" ++ linkDomain
            else ""
          else ""
        if newMergeKey ≠ "" && (AccountMap.get? st.mergeMap newMergeKey).isNone then
          { st with
            mergeMap := AccountMap.set st.mergeMap newMergeKey
              (dedupedOf account (some recomputedSource))
            processedIds := st.processedIds ++ [account.id] }
        else st

/-- State of the blank-row absorption and later passes. -/
structure P3State where
  mergeMap : AccountMap
  mergedCount : Nat
  removedCount : Nat
deriving Repr

/-- One blank-credential bucket: merged into the first stored account with
the same normalized service name (all counted), else its first row is kept
under a `_BLANK_` key and the rest are counted as removed. -/
def blankBucketStep (st : P3State) (bucket : String × List Account) : P3State :=
  let serviceKey := bucket.1
  let blankRows := bucket.2
  match List.find? (fun kv => lowerS (normalizeEmptyS kv.2.service) = serviceKey) st.mergeMap with
  | some kv =>
    let currentMerged := blankRows.foldl (fun cur br => mergeAccountsWithLinks cur br) kv.2
    { mergeMap := AccountMap.set st.mergeMap kv.1 currentMerged
      mergedCount := st.mergedCount + blankRows.length
      removedCount := st.removedCount + blankRows.length }
  | none =>
    match blankRows with
    | [] => st
    | first :: rest =>
      { st with
        mergeMap := AccountMap.set st.mergeMap ("_BLANK_" ++ serviceKey) first
        removedCount := st.removedCount + rest.length }

/-- State of the STEP-2 deduplication and of the final pass. -/
structure FState where
  fmap : AccountMap
  mergedCount : Nat
  removedCount : Nat
deriving Repr

/-- The scan condition of STEP 2 (note: the service-name comparison is
between the trimmed — not lower-cased — service of the account and the
lower-cased service of the stored entry, exactly as in the source). -/
def step2ScanCond (providerEmail password serviceName domain : String) (acc : Account) : Bool :=
  let accEmail := lowerS (normalizeEmptyS acc.accountEmail)
  let accPassword := normalizeEmptyS (mvToKeyString (mdGet acc "password"))
  if accEmail = lowerS providerEmail && accPassword = password then
    let accService := lowerS (normalizeEmptyS acc.service)
    let accLinkStr := firstLinkOf (mdGet acc "link")
    let accDomain := extractDomainFromLink (normalizeLinkForMatching accLinkStr)
    (!isEmptyS serviceName && !isEmptyS accService && serviceName = accService) ||
    (!isEmptyS domain && !isEmptyS accDomain && domain = accDomain)
  else false

/-- One merged account of STEP 2: drop rows whose critical fields are all
empty, then re-deduplicate by merge key or by the email+password+
service/domain scan. -/
def step2Item (st : FState) (account : Account) : FState :=
  let providerEmail := normalizeEmptyS account.accountEmail
  let serviceName := normalizeEmptyS account.service
  let password := normalizeEmptyS (mvToKeyString (mdGet account "password"))
  let serviceLink := normalizeEmptyS (firstLinkOf (mdGet account "link"))
  if isEmptyS providerEmail && isEmptyS serviceName && isEmptyS serviceLink then
    { st with removedCount := st.removedCount + 1 }
  else
    let normalizedLink := normalizeLinkForMatching serviceLink
    let domain := extractDomainFromLink normalizedLink
    let mergeKey :=
      if !isEmptyS serviceName then
        lowerS providerEmail ++ "|" ++ password ++ "|" ++ lowerS serviceName
      else lowerS providerEmail ++ "|" ++ password ++ "|" ++ domain
    match AccountMap.get? st.fmap mergeKey with
    | some existing =>
      { st with
        fmap := AccountMap.set st.fmap mergeKey (mergeAccountsWithLinks existing account)
        mergedCount := st.mergedCount + 1 }
    | none =>
      match List.find? (fun kv =>
          step2ScanCond providerEmail password serviceName domain kv.2) st.fmap with
      | some kv =>
        { st with
          fmap := AccountMap.set st.fmap kv.1 (mergeAccountsWithLinks kv.2 account)
          mergedCount := st.mergedCount + 1 }
      | none => { st with fmap := AccountMap.set st.fmap mergeKey account }

/-- State of the final (STEP 4) pass. -/
structure F4State where
  fmap : AccountMap
  processedFinalIds : List String
  mergedCount : Nat
  removedCount : Nat
deriving Repr

/-- The scan condition of STEP 4 (both service names lower-cased here). -/
def step4ScanCond (providerEmail password serviceName domain : String) (acc : Account) : Bool :=
  let accEmail := lowerS (normalizeEmptyS acc.accountEmail)
  let accPassword := normalizeEmptyS (mvToKeyString (mdGet acc "password"))
  if accEmail = providerEmail && accPassword = password then
    let accService := lowerS (normalizeEmptyS acc.service)
    let accLinkStr := firstLinkOf (mdGet acc "link")
    let accDomain := extractDomainFromLink (normalizeLinkForMatching accLinkStr)
    (!isEmptyS serviceName && !isEmptyS accService && serviceName = accService) ||
    (!isEmptyS domain && !isEmptyS accDomain && domain = accDomain)
  else false

/-- One account of the final pass: merge residual duplicates by merge key
or by the email+password+service/domain scan. -/
def step4Item (st : F4State) (account : Account) : F4State :=
  if st.processedFinalIds.contains account.id then st
  else
    let providerEmail := lowerS (normalizeEmptyS account.accountEmail)
    let password := normalizeEmptyS (mvToKeyString (mdGet account "password"))
    let serviceName := lowerS (normalizeEmptyS account.service)
    let serviceLink := firstLinkOf (mdGet account "link")
    let normalizedLink := normalizeLinkForMatching serviceLink
    let domain := extractDomainFromLink normalizedLink
    let mergeKey :=
      if !isEmptyS serviceName then
        providerEmail ++ "|" ++ password ++ "|" ++ serviceName
      else providerEmail ++ "|" ++ password ++ "|" ++ domain
    match AccountMap.get? st.fmap mergeKey with
    | some existing =>
      { st with
        fmap := AccountMap.set st.fmap mergeKey (mergeAccountsWithLinks existing account)
        processedFinalIds := st.processedFinalIds ++ [account.id]
        mergedCount := st.mergedCount + 1 }
    | none =>
      match List.find? (fun kv =>
          step4ScanCond providerEmail password serviceName domain kv.2) st.fmap with
      | some kv =>
        { st with
          fmap := AccountMap.set st.fmap kv.1 (mergeAccountsWithLinks kv.2 account)
          processedFinalIds := st.processedFinalIds ++ [account.id]
          mergedCount := st.mergedCount + 1 }
      | none =>
        { st with
          fmap := AccountMap.set st.fmap mergeKey account
          processedFinalIds := st.processedFinalIds ++ [account.id] }

/-- The result record of `consolidateAccounts`. -/
structure ConsolidationResult where
  accounts : List Account
  mergedCount : Nat
  removedCount : Nat
deriving DecidableEq, Repr

/-- `consolidateAccounts`: the full multi-pass consolidation. The
`try`/`catch` wrapper of the source never fires in the model, because
every operation of the grouping phase is total (the URL-constructor
throws are caught locally inside the helpers); STEP 3 of the source only
builds an unused diagnostic list and is omitted. -/
def consolidateAccounts (accounts : List Account) : ConsolidationResult :=
  let st1 := accounts.foldl pass1Step ⟨[], [], 0⟩
  let snapshot := st1.mergeMap.map (fun kv => kv.2)
  let processedIds := snapshot.map (fun a => a.id)
  let st2 := accounts.foldl (pass2Step snapshot) ⟨st1.mergeMap, processedIds, st1.mergedCount⟩
  let st3 := st1.blankRows.foldl blankBucketStep ⟨st2.mergeMap, st2.mergedCount, 0⟩
  let mergedAccounts := st3.mergeMap.map (fun kv => kv.2)
  let stF := mergedAccounts.foldl step2Item ⟨[], st3.mergedCount, st3.removedCount⟩
  let finalAccounts := stF.fmap.map (fun kv => kv.2)
  let st4 := finalAccounts.foldl step4Item ⟨[], [], stF.mergedCount, stF.removedCount⟩
  { accounts := st4.fmap.map (fun kv => kv.2)
    mergedCount := st4.mergedCount
    removedCount := st4.removedCount }

/-- The MergeKey of the final-validation scan (STEP 3 of the source):
`(lower-cased provider email, password, service-name-or-normalized-link-
domain)`, defined only for records with non-empty provider email and
password. -/
def validationKey (account : Account) : Option String :=
  let providerEmail := lowerS (normalizeEmptyS account.accountEmail)
  let password := normalizeEmptyS (mvToKeyString (mdGet account "password"))
  let serviceName := lowerS (normalizeEmptyS account.service)
  let serviceLink := firstLinkOf (mdGet account "link")
  let normalizedLink := normalizeLinkForMatching serviceLink
  let domain := extractDomainFromLink normalizedLink
  if !isEmptyS providerEmail && !isEmptyS password then
    let matchKey := if !isEmptyS serviceName then serviceName else domain
    some (providerEmail ++ "|" ++ password ++ "|" ++ matchKey)
  else none

/-! ## part_010 — the data-normalization service -/

/-- The character class `[^\s@]` of the email/URL regexes. -/
def isEmailCls (c : Char) : Bool := !isWsChar c && c ≠ '@'

/-- Anchored test of `/^[^\s@]+@[^\s@]+\.[^\s@]+$/`: the string matches
exactly when it has exactly one `@`, no whitespace, a non-empty part
before the `@`, and the part after the `@` has a dot at an internal
position (neither first nor last character). -/
def emailRegexTestL (l : List Char) : Bool :=
  decide ((l.filter (fun c => c = '@')).length = 1)
    && l.all (fun c => !isWsChar c)
    && !(l.takeWhile (fun c => c ≠ '@')).isEmpty
    && (((((l.dropWhile (fun c => c ≠ '@')).drop 1).drop 1).dropLast).contains '.')

/-- `isValidEmail`. -/
def isValidEmail (email : String) : Bool :=
  if email = "" then false
  else emailRegexTestL (trimL email.data)

/-- `isValidUrl`: `/^https?:\/\//i` prefix, no `@`, and the URL
constructor does not throw (modelled by `urlHostname?`). -/
def isValidUrl (url : String) : Bool :=
  if url = "" then false
  else
    let trimmed := trimL url.data
    if !(isPrefixCiL "https://".data trimmed || isPrefixCiL "http://".data trimmed) then false
    else if trimmed.contains '@' then false
    else (urlHostname? ⟨trimmed⟩).isSome

/-- `isValidServiceName`: no `@`, no `/https?:\/\//i` occurrence, trimmed
length between 1 and 200. -/
def isValidServiceName (name : String) : Bool :=
  if name = "" then false
  else
    let trimmed := trimL name.data
    if trimmed.contains '@' then false
    else if containsL (lowerL trimmed) "http://".data
        || containsL (lowerL trimmed) "https://".data then false
    else decide (1 ≤ trimmed.length) && decide (trimmed.length ≤ 200)

/-- One anchored attempt of `/([^\s@]+@[^\s@]+\.[^\s@]+)/` at the head of
the list: a maximal class run, the literal `@`, then the maximal class
run after it, which must contain an internal dot (the backtracking engine
can only shorten a `+`-run at a position whose next character is outside
the class, so only maximal runs can be followed by the literals). -/
def emailAttemptL : List Char → Option (List Char)
  | [] => none
  | c :: cs =>
    if isEmailCls c then
      let run := (c :: cs).takeWhile isEmailCls
      match (c :: cs).drop run.length with
      | '@' :: rest2 =>
        let r := rest2.takeWhile isEmailCls
        if (((r.drop 1).dropLast).contains '.') then some (run ++ '@' :: r) else none
      | _ => none
    else none

/-- Leftmost unanchored search of the email pattern (`String.match`). -/
def emailSearchL : List Char → Option (List Char)
  | [] => none
  | c :: cs =>
    match emailAttemptL (c :: cs) with
    | some m => some m
    | none => emailSearchL cs

/-- `extractEmail`. -/
def extractEmail (input : String) : Option String :=
  if input = "" then none
  else
    match emailSearchL input.data with
    | some m => if isValidEmail ⟨m⟩ then some (trimS ⟨m⟩) else none
    | none => none

/-- One anchored attempt of `/(https?:\/\/[^\s@]+)/i` at the head
(the `s` alternative is preferred; the class run is maximal and must be
non-empty); the matched substring keeps the original casing. -/
def urlAttemptL (l : List Char) : Option (List Char) :=
  if isPrefixCiL "https://".data l then
    let run := (l.drop 8).takeWhile isEmailCls
    if run.isEmpty then none else some (l.take 8 ++ run)
  else if isPrefixCiL "http://".data l then
    let run := (l.drop 7).takeWhile isEmailCls
    if run.isEmpty then none else some (l.take 7 ++ run)
  else none

/-- Leftmost unanchored search of the URL pattern. -/
def urlSearchL : List Char → Option (List Char)
  | [] => none
  | c :: cs =>
    match urlAttemptL (c :: cs) with
    | some m => some m
    | none => urlSearchL cs

/-- `extractUrl`. -/
def extractUrl (input : String) : Option String :=
  if input = "" then none
  else
    match urlSearchL input.data with
    | some m => if isValidUrl ⟨m⟩ then some (trimS ⟨m⟩) else none
    | none => none

/-- Length of a match of `/\s*\([^)]*\)\s*/` anchored at the head:
leading whitespace run, `(`, a run of non-`)` characters, `)`, trailing
whitespace run. -/
def parenMatchLen (l : List Char) : Option Nat :=
  let wsn := (l.takeWhile isWsChar).length
  match l.drop wsn with
  | '(' :: rest =>
    let inner := rest.takeWhile (fun c => c ≠ ')')
    match rest.drop inner.length with
    | ')' :: rest2 => some (wsn + 1 + inner.length + 1 + (rest2.takeWhile isWsChar).length)
    | _ => none
  | _ => none

/-- `s.replace(/\s*\([^)]*\)\s*/g, '')`: remove every leftmost-first
non-overlapping match. The fuel argument (initially the length) only
bounds the recursion; every removed match consumes at least two
characters, so the fuel never runs out. -/
def removeParensAux : Nat → List Char → List Char
  | 0, l => l
  | _ + 1, [] => []
  | fuel + 1, c :: cs =>
    match parenMatchLen (c :: cs) with
    | some n => removeParensAux fuel ((c :: cs).drop n)
    | none => c :: removeParensAux fuel cs

def removeParensL (l : List Char) : List Char := removeParensAux l.length l

/-- The TLD alternation of the big domain regex. -/
def bigTlds : List String :=
  ["com", "net", "org", "io", "co", "us", "uk", "de", "fr", "ca", "au", "jp", "in",
   "edu", "gov", "app", "dev"]

/-- `(?:com|net|org|…|dev)` matched case-insensitively at the head (no
anchor or boundary follows it in the pattern, so a prefix suffices). -/
def tryTldL (l : List Char) : Bool := bigTlds.any (fun t => isPrefixCiL t.data l)

/-- Anchored attempt of the tail `([a-zA-Z0-9-]+\.)?([a-zA-Z0-9-]+)\.TLD`
of the big domain regex, returning capture group 2. A `+`-run can only
match maximally here (the next character after a shortened run is still
in the class, never the required dot), so: the head run followed by a dot
with the group-1 alternative preferred, then either a second run, dot and
TLD (group 1 present) or the TLD directly (group 1 absent). -/
def attemptG (l : List Char) : Option (List Char) :=
  let run1 := l.takeWhile isCls1
  if run1.isEmpty then none
  else
    match l.drop run1.length with
    | '.' :: rest =>
      let withG1 : Option (List Char) :=
        let run2 := rest.takeWhile isCls1
        if run2.isEmpty then none
        else
          match rest.drop run2.length with
          | '.' :: rest2 => if tryTldL rest2 then some run2 else none
          | _ => none
      match withG1 with
      | some r => some r
      | none => if tryTldL rest then some run1 else none
    | _ => none

/-- Anchored attempt of the whole big domain regex
`/(?:https?:\/\/)?(?:www\.)?([a-zA-Z0-9-]+\.)?([a-zA-Z0-9-]+)\.(?:com|…|dev)/i`
at one start position: each optional prefix is preferred present, and the
backtracking order enumerates scheme-then-`www.` choices in order. -/
def attemptSW (l : List Char) : Option (List Char) :=
  let sChoices : List (List Char) :=
    if isPrefixCiL "https://".data l then [l.drop 8, l]
    else if isPrefixCiL "http://".data l then [l.drop 7, l]
    else [l]
  let pChoices : List (List Char) := sChoices.flatMap (fun m =>
    if isPrefixCiL "www.".data m then [m.drop 4, m] else [m])
  pChoices.findSome? attemptG

/-- Leftmost unanchored search of the big domain regex. -/
def bigDomainSearch : List Char → Option (List Char)
  | [] => none
  | c :: cs =>
    match attemptSW (c :: cs) with
    | some r => some r
    | none => bigDomainSearch cs

/-- Anchored test of `/^[a-zA-Z0-9.-]+\.[a-zA-Z]{2,}$/`: all characters
in `[a-zA-Z0-9.-]`, and the segment after the last dot is alphabetic of
length at least 2, with that dot existing and preceded by at least one
character. -/
def cleanDomainTest (l : List Char) : Bool :=
  let after := (l.reverse.takeWhile (fun c => c ≠ '.')).reverse
  !l.isEmpty && l.all isCls2
    && decide (after.length ≥ 2) && after.all Char.isAlpha
    && decide (after.length + 1 ≤ l.length)
    && decide (1 ≤ l.length - after.length - 1)

/-- The `serviceMap` table of known base-domain → display-name pairs. -/
def serviceMap : List (String × String) :=
  [("googlemail", "Gmail"), ("google", "Google"), ("yahoo", "Yahoo"), ("hotmail", "Hotmail"),
   ("outlook", "Microsoft Outlook"), ("live", "Microsoft"), ("msn", "Microsoft"), ("aol", "AOL"),
   ("icloud", "Apple iCloud"), ("apple", "Apple"), ("facebook", "Facebook"),
   ("twitter", "Twitter/X"), ("x", "Twitter/X"), ("instagram", "Instagram"),
   ("linkedin", "LinkedIn"), ("github", "GitHub"), ("amazon", "Amazon"), ("netflix", "Netflix"),
   ("spotify", "Spotify"), ("hulu", "Hulu"), ("disney", "Disney+"), ("paypal", "PayPal"),
   ("stripe", "Stripe"), ("uber", "Uber"), ("airbnb", "Airbnb"), ("appfolio", "Allied"),
   ("crimson", "Crimson"), ("domini", "DominI")]

/-- `inferServiceNameFromDomain`. -/
def inferServiceNameFromDomain (domain : String) : Option String :=
  if domain = "" then none
  else
    let domainLower : String := ⟨stripWwwL (lowerL domain.data)⟩
    let parts := splitDotS domainLower
    let baseDomain : String :=
      if parts.length ≥ 2 then
        let p := parts.getD (parts.length - 2) ""
        if p ≠ "" then p else parts.headD ""
      else
        let p := parts.headD ""
        if p ≠ "" then p else domainLower
    if baseDomain = "" || baseDomain.data.length < 2 then none
    else
      match List.find? (fun kv => kv.1 = baseDomain) serviceMap with
      | some kv => some kv.2
      | none => some (capitalizeS baseDomain)

/-- `extractServiceNameFromString`: strip parentheticals, search the big
domain regex (returning `inferServiceNameFromDomain` of group 2 plus
`.com` when it matches), otherwise fall back to the anchored clean-domain
test. -/
def extractServiceNameFromString (input : String) : Option String :=
  if input = "" then none
  else
    let cleaned : String := ⟨trimL (removeParensL input.data)⟩
    match bigDomainSearch cleaned.data with
    | some g2 =>
      if g2.isEmpty then
        if cleanDomainTest cleaned.data then inferServiceNameFromDomain cleaned else none
      else inferServiceNameFromDomain (⟨lowerL g2⟩ ++ ".com")
    | none =>
      if cleanDomainTest cleaned.data then inferServiceNameFromDomain cleaned else none

/-- `inferServiceLink`: lower-case, keep `[a-z0-9]`, require length ≥ 2,
then `https://<domain>.com`. -/
def inferServiceLink (serviceName : String) : Option String :=
  if serviceName = "" then none
  else
    let domain : String :=
      ⟨(lowerL serviceName.data).filter (fun c => ('a' ≤ c && c ≤ 'z') || ('0' ≤ c && c ≤ '9'))⟩
    if domain.data.length < 2 then none
    else some ("https://" ++ domain ++ ".com")

/-- `inferProviderEmail`: the account email when truthy and valid. -/
def inferProviderEmail (account : Account) : Option String :=
  if account.accountEmail ≠ "" && isValidEmail account.accountEmail then
    some account.accountEmail
  else none

/-- `typeof url === 'string'` guard before the URL validator, on a
metadata value (arrays fail the `typeof` test, absent values are falsy). -/
def isValidUrlMV : Option MetaValue → Bool
  | some (.str s) => isValidUrl s
  | _ => false

/-- The string content of a metadata value known to be a string. -/
def mvStringD : Option MetaValue → String
  | some (.str s) => s
  | _ => ""

/-- `s.split(sep)`. -/
def splitCharL (sep : Char) : List Char → List (List Char)
  | [] => [[]]
  | c :: cs =>
    if c = sep then [] :: splitCharL sep cs
    else
      match splitCharL sep cs with
      | [] => [[c]]
      | h :: t => (c :: h) :: t

/-- The extraction/inference phase of `normalizeAccount` (STEPs 1–4). -/
structure NormCore where
  providerEmail : String
  serviceLink : String
  serviceName : String
  normalizationApplied : Bool
  inferredFields : List String
deriving DecidableEq, Repr

/-- STEPs 1–4 of `normalizeAccount`: extract email/URL from the
accountEmail and service fields, take a link from metadata, then assign
each output field from the extracted, existing or inferred value in the
source's order, recording inferred fields. -/
def normalizeCore (account : Account) : NormCore :=
  -- STEP 1
  let extractedEmail0 : Option String :=
    if account.accountEmail ≠ "" then extractEmail account.accountEmail else none
  let extractedUrl0 : Option String :=
    if account.accountEmail ≠ "" then extractUrl account.accountEmail else none
  -- STEP 2
  let serviceEmail : Option String :=
    if account.service ≠ "" then extractEmail account.service else none
  let serviceUrl : Option String :=
    if account.service ≠ "" then extractUrl account.service else none
  let extractedEmail :=
    if serviceEmail.isSome && extractedEmail0.isNone then serviceEmail else extractedEmail0
  let fieldsA : List String :=
    if serviceEmail.isSome && extractedEmail0.isNone then ["providerEmail"] else []
  let extractedUrl1 :=
    if serviceUrl.isSome && extractedUrl0.isNone then serviceUrl else extractedUrl0
  let fieldsB := fieldsA ++ (if serviceUrl.isSome && extractedUrl0.isNone then ["serviceLink"] else [])
  let extractedFromString : Option String :=
    if account.service ≠ "" then extractServiceNameFromString account.service else none
  let extractedServiceName : Option String :=
    match extractedFromString with
    | some n => some n
    | none =>
      if account.service ≠ "" && serviceEmail.isNone && serviceUrl.isNone
          && isValidServiceName account.service then
        some (trimS account.service)
      else none
  let fieldsC := fieldsB ++ (if extractedFromString.isSome then ["serviceName"] else [])
  let normApplied0 := extractedFromString.isSome
  -- STEP 3
  let mdLink := mdGet account "link"
  let step3 := account.metadata.isSome && truthyMV mdLink
    && extractedUrl1.isNone && isValidUrlMV mdLink
  let extractedUrl := if step3 then some (mvStringD mdLink) else extractedUrl1
  let fieldsD := fieldsC ++ (if step3 then ["serviceLink"] else [])
  -- STEP 4: provider email
  let peCase1 := extractedEmail.isSome && isValidEmail (extractedEmail.getD "")
  let peCase2 := !peCase1 && account.accountEmail ≠ "" && isValidEmail account.accountEmail
  let inferredPE := inferProviderEmail account
  let peCase3 := !peCase1 && !peCase2 && inferredPE.isSome
  let providerEmail :=
    if peCase1 then extractedEmail.getD ""
    else if peCase2 then account.accountEmail
    else if peCase3 then inferredPE.getD "" else ""
  let fieldsE := fieldsD ++ (if peCase3 then ["providerEmail"] else [])
  let normApplied1 := normApplied0 || peCase3
  -- STEP 4: service link
  let slCase1 := extractedUrl.isSome && isValidUrl (extractedUrl.getD "")
  let slCase2 := !slCase1 && truthyMV mdLink && isValidUrlMV mdLink
  let serviceNameForInference : String :=
    match extractedServiceName with
    | some n => n
    | none => account.service
  let inferredSL :=
    if serviceNameForInference ≠ "" then inferServiceLink serviceNameForInference else none
  let slCase3 := !slCase1 && !slCase2 && inferredSL.isSome
  let serviceLink :=
    if slCase1 then extractedUrl.getD ""
    else if slCase2 then mvStringD mdLink
    else if slCase3 then inferredSL.getD "" else ""
  let fieldsF := fieldsE ++ (if slCase3 then ["serviceLink"] else [])
  let normApplied2 := normApplied1 || slCase3
  -- STEP 4: service name
  let snCase1 := extractedServiceName.isSome && isValidServiceName (extractedServiceName.getD "")
  let snCase2 := !snCase1 && account.service ≠ "" && isValidServiceName account.service
  let domain : Option String :=
    if providerEmail ≠ "" && providerEmail.data.contains '@' then
      some ⟨(splitCharL '@' providerEmail.data).getD 1 []⟩
    else if serviceLink ≠ "" then urlHostname? serviceLink
    else none
  let inferredSN : Option String :=
    match domain with
    | some d => if d ≠ "" then inferServiceNameFromDomain d else none
    | none => none
  let snCase3 := !snCase1 && !snCase2 && inferredSN.isSome
  let serviceName :=
    if snCase1 then extractedServiceName.getD ""
    else if snCase2 then account.service
    else if snCase3 then inferredSN.getD "" else ""
  let fieldsG := fieldsF ++ (if snCase3 then ["serviceName"] else [])
  let normApplied3 := normApplied2 || snCase3
  { providerEmail := providerEmail, serviceLink := serviceLink, serviceName := serviceName,
    normalizationApplied := normApplied3, inferredFields := fieldsG }

/-- The record returned by `normalizeAccount` (`NormalizedAccount`
extends `DiscoveredAccount` by the normalized fields). -/
structure NormalizedAccount where
  base : Account
  providerEmail : String
  serviceLink : String
  serviceName : String
  normalizationApplied : Bool
  needsReview : Bool
  inferredFields : List String
deriving DecidableEq, Repr

/-- `normalizeAccount`: the extraction/inference phase followed by STEP 5
(validate the three fields) and STEP 6 (`needsReview` exactly when one of
them fails its validator or is empty), plus the final
`normalizationApplied` update from `inferredFields`. -/
def normalizeAccount (account : Account) : NormalizedAccount :=
  let c := normalizeCore account
  let hasValidProviderEmail := c.providerEmail ≠ "" && isValidEmail c.providerEmail
  let hasValidServiceLink := c.serviceLink ≠ "" && isValidUrl c.serviceLink
  let hasValidServiceName := c.serviceName ≠ "" && isValidServiceName c.serviceName
  let needsReview := !hasValidProviderEmail || !hasValidServiceLink || !hasValidServiceName
  { base := account
    providerEmail := c.providerEmail
    serviceLink := c.serviceLink
    serviceName := c.serviceName
    normalizationApplied := c.normalizationApplied || decide (c.inferredFields.length > 0)
    needsReview := needsReview
    inferredFields := c.inferredFields }

/-! ## Lemmas about metadata objects -/

theorem Obj.find?_set_self (o : Obj) (k : String) (v : MetaValue) :
    Obj.find? (Obj.set o k v) k = some v := by
  induction o with
  | nil => simp [Obj.set, Obj.find?, List.find?]
  | cons p rest ih =>
    by_cases h : p.1 = k
    · simp [Obj.set, h, Obj.find?, List.find?]
    · simp only [Obj.set, h, if_false]
      simpa [Obj.find?, List.find?, h] using ih

theorem Obj.find?_set_ne (o : Obj) (k k' : String) (v : MetaValue) (h : k' ≠ k) :
    Obj.find? (Obj.set o k' v) k = Obj.find? o k := by
  induction o with
  | nil => simp [Obj.set, Obj.find?, List.find?, h]
  | cons p rest ih =>
    by_cases hp : p.1 = k'
    · simp [Obj.set, hp, Obj.find?, List.find?, h, Ne.symm h]
    · by_cases hk : p.1 = k
      · simp [Obj.set, hp, Obj.find?, List.find?, hk, Ne.symm h]
      · simp only [Obj.set, hp, if_false]
        simpa [Obj.find?, List.find?, hk] using ih

theorem Obj.getv_set_ne (o : Obj) (k k' : String) (v : MetaValue) (h : k' ≠ k) :
    Obj.getv (Obj.set o k' v) k = Obj.getv o k := by
  simp [Obj.getv, Obj.find?_set_ne o k k' v h]

theorem Obj.getv_set_self (o : Obj) (k : String) (v : MetaValue) :
    Obj.getv (Obj.set o k v) k = (match v with | .undef => none | v => some v) := by
  cases v <;> simp [Obj.getv, Obj.find?_set_self o k]

/-- A property access never yields the explicit `undefined`. -/
theorem Obj.getv_ne_undef (o : Obj) (k : String) : Obj.getv o k ≠ some .undef := by
  unfold Obj.getv
  rcases h : Obj.find? o k with _ | v
  · simp
  · cases v <;> simp

theorem mdGetO_ne_undef (em : Option Obj) (k : String) : mdGetO em k ≠ some .undef := by
  cases em with
  | none => simp [mdGetO]
  | some o => simpa [mdGetO] using Obj.getv_ne_undef o k

/-- Reading back a `setOrUndef` of a value that is not the explicit
`undefined` returns exactly that value. -/
theorem Obj.getv_setOrUndef_self (m : Obj) (k : String) (w : Option MetaValue)
    (hw : w ≠ some .undef) :
    Obj.getv (setOrUndef m k w) k = w := by
  rcases w with _ | v
  · simp [setOrUndef, Obj.getv_set_self]
  · cases v <;> simp_all [setOrUndef, Obj.getv_set_self]

theorem Obj.getv_setIfSome_ne (m : Obj) (k k' : String) (v : Option MetaValue) (h : k' ≠ k) :
    Obj.getv (setIfSome m k' v) k = Obj.getv m k := by
  cases v with
  | none => simp [setIfSome]
  | some mv => simp [setIfSome, Obj.getv_set_ne m k k' mv h]

theorem Obj.getv_setOrUndef_ne (m : Obj) (k k' : String) (w : Option MetaValue) (h : k' ≠ k) :
    Obj.getv (setOrUndef m k' w) k = Obj.getv m k :=
  Obj.getv_set_ne m k k' _ h

/-- The catch-all metadata loop of the merge never writes any of the
individually-handled keys. -/
theorem getv_mergeFold_excluded (em : Option Obj) (im : Obj) (k : String)
    (hk : mergeExcludedKeys.contains k = true) :
    ∀ (l : List (String × MetaValue)) (m : Obj),
      Obj.getv (l.foldl (fun m kv =>
        let key := kv.1
        if mergeExcludedKeys.contains key then m
        else
          let incomingValue := Obj.getv im key
          if !Obj.hasKey m key || isEmptyMV (Obj.getv m key) then
            if !isEmptyMV incomingValue then setIfSome m key incomingValue
            else if em.isSome && !isEmptyMV (mdGetO em key) then setIfSome m key (mdGetO em key)
            else m
          else m) m) k = Obj.getv m k := by
  intro l
  induction l with
  | nil => intro m; rfl
  | cons kv rest ih =>
    intro m
    rw [List.foldl_cons, ih]
    by_cases hkv : mergeExcludedKeys.contains kv.1
    · simp only [hkv, if_true]
    · have hne : kv.1 ≠ k := by
        intro hEq; rw [hEq] at hkv; exact hkv hk
      simp only [hkv, if_false, Bool.false_eq_true]
      split
      · split
        · exact Obj.getv_setIfSome_ne _ _ _ _ hne
        · split
          · exact Obj.getv_setIfSome_ne _ _ _ _ hne
          · rfl
      · rfl

/-- The priority of a strength value is at most the default. -/
theorem getPasswordStrengthPriority_le_four (s : Option MetaValue) :
    getPasswordStrengthPriority s ≤ 4 := by
  unfold getPasswordStrengthPriority
  split <;> omega

/-- Core merge-policy fact: the merged record's `passwordStrength` is
exactly `getWorstPasswordStrength` of the two sides. -/
theorem mdGet_merge_passwordStrength (e i : Account) :
    mdGet (mergeAccountsWithLinks e i) "passwordStrength"
      = getWorstPasswordStrength (mdGet e "passwordStrength") (mdGet i "passwordStrength") := by
  cases him : i.metadata with
  | none =>
    have hworst : getWorstPasswordStrength (mdGet e "passwordStrength") none
        = mdGet e "passwordStrength" := by
      unfold getWorstPasswordStrength
      rw [if_pos]
      exact getPasswordStrengthPriority_le_four _
    have hmdi : mdGet i "passwordStrength" = none := by simp [mdGet, him]
    rw [hmdi, hworst]
    cases hem : e.metadata with
    | none =>
      simp [mergeAccountsWithLinks, mdGet, him, hem, Obj.getv, Obj.find?, List.find?]
    | some o =>
      simp [mergeAccountsWithLinks, mdGet, mdGetO, him, hem]
  | some im =>
    have hworst_ne : getWorstPasswordStrength (mdGetO e.metadata "passwordStrength")
        (Obj.getv im "passwordStrength") ≠ some .undef := by
      unfold getWorstPasswordStrength
      split
      · exact mdGetO_ne_undef _ _
      · exact Obj.getv_ne_undef _ _
    have hmdi : mdGet i "passwordStrength" = Obj.getv im "passwordStrength" := by
      simp [mdGet, him]
    have hmde : mdGet e "passwordStrength" = mdGetO e.metadata "passwordStrength" := by
      simp [mdGet, mdGetO]
    rw [hmdi, hmde]
    simp only [mergeAccountsWithLinks, him, mdGet]
    rw [getv_mergeFold_excluded e.metadata im "passwordStrength" (by decide)]
    rw [Obj.getv_setOrUndef_ne _ _ _ _ (by decide)]
    rw [Obj.getv_setOrUndef_ne _ _ _ _ (by decide)]
    rw [Obj.getv_setOrUndef_self _ _ _ hworst_ne]

/-- The strength values the specification's ordering speaks about:
weak/moderate/strong, or unset (absent). -/
def strengthInDomain (v : Option MetaValue) : Prop :=
  v = none ∨ v = some (.str "weak") ∨ v = some (.str "moderate") ∨ v = some (.str "strong")

instance (v : Option MetaValue) : Decidable (strengthInDomain v) := by
  unfold strengthInDomain; infer_instance

/-- Rank in the specification's ordering weak < moderate < strong < unset. -/
def strengthRank : Option MetaValue → Nat
  | some (.str "weak") => 0
  | some (.str "moderate") => 1
  | some (.str "strong") => 2
  | _ => 3

/-- The weaker of two strength values under the specification's ordering
(first argument kept on ties). -/
def weakerStrength (s1 s2 : Option MetaValue) : Option MetaValue :=
  if strengthRank s1 ≤ strengthRank s2 then s1 else s2

theorem one_le_getPasswordStrengthPriority (s : Option MetaValue) :
    1 ≤ getPasswordStrengthPriority s := by
  unfold getPasswordStrengthPriority
  split <;> omega

theorem two_le_getPasswordStrengthPriority (s : Option MetaValue)
    (h : s ≠ some (.str "weak")) : 2 ≤ getPasswordStrengthPriority s := by
  unfold getPasswordStrengthPriority
  split <;> simp_all

/-- On the specification's domain, the source's worst-of function is the
specification's weaker-of function. -/
theorem getWorst_eq_weakerStrength (s1 s2 : Option MetaValue)
    (h1 : strengthInDomain s1) (h2 : strengthInDomain s2) :
    getWorstPasswordStrength s1 s2 = weakerStrength s1 s2 := by
  rcases h1 with rfl | rfl | rfl | rfl <;> rcases h2 with rfl | rfl | rfl | rfl <;> rfl

/-- `weak` absorbs: if either side is `weak`, the worst-of is `weak`. -/
theorem getWorst_weak_absorb (s1 s2 : Option MetaValue)
    (h : s1 = some (.str "weak") ∨ s2 = some (.str "weak")) :
    getWorstPasswordStrength s1 s2 = some (.str "weak") := by
  by_cases h1 : s1 = some (.str "weak")
  · unfold getWorstPasswordStrength
    rw [if_pos]
    · exact h1
    · rw [h1]
      exact one_le_getPasswordStrengthPriority s2
  · rcases h with h | h2
    · exact absurd h h1
    · unfold getWorstPasswordStrength
      rw [if_neg]
      · exact h2
      · rw [h2]
        have h2le := two_le_getPasswordStrengthPriority s1 h1
        have hw : getPasswordStrengthPriority (some (.str "weak")) = 1 := rfl
        omega

/-- **C3.** For every pair of records merged by the merge policy, the
surviving `metadata.passwordStrength` is the weaker of the two sides under
the ordering weak < moderate < strong < unset; consequently, if either
side is `weak`, the merged record's strength is `weak` (so a `weak`
record absorbed into a group keeps the group flagged `weak` through every
merge). -/
theorem merged_passwordStrength_is_weakest (e i : Account)
    (h1 : strengthInDomain (mdGet e "passwordStrength"))
    (h2 : strengthInDomain (mdGet i "passwordStrength")) :
    mdGet (mergeAccountsWithLinks e i) "passwordStrength"
      = weakerStrength (mdGet e "passwordStrength") (mdGet i "passwordStrength")
    ∧ ((mdGet e "passwordStrength" = some (.str "weak") ∨
        mdGet i "passwordStrength" = some (.str "weak")) →
        mdGet (mergeAccountsWithLinks e i) "passwordStrength" = some (.str "weak")) := by
  constructor
  · rw [mdGet_merge_passwordStrength]
    exact getWorst_eq_weakerStrength _ _ h1 h2
  · intro h
    rw [mdGet_merge_passwordStrength]
    exact getWorst_weak_absorb _ _ h

def c3Existing : Account :=
  { id := "e1", service := "Netflix", accountEmail := "u@x.com", source := "Gmail (OAuth)",
    discoveredAt := 1,
    metadata := some [("password", .str "p"), ("passwordStrength", .str "weak")],
    allSources := some ["Gmail (OAuth)"], firstDiscoveredAt := some 1,
    lastDiscoveredAt := some 1 }

def c3Incoming : Account :=
  { id := "e2", service := "Netflix", accountEmail := "u@x.com", source := "Chrome (CSV)",
    discoveredAt := 2,
    metadata := some [("password", .str "p"), ("passwordStrength", .str "strong")] }

/-- Witness for C3 at a concrete weak/strong pair. -/
theorem merged_passwordStrength_is_weakest_witness :
    mdGet (mergeAccountsWithLinks c3Existing c3Incoming) "passwordStrength"
      = weakerStrength (mdGet c3Existing "passwordStrength") (mdGet c3Incoming "passwordStrength")
    ∧ ((mdGet c3Existing "passwordStrength" = some (.str "weak") ∨
        mdGet c3Incoming "passwordStrength" = some (.str "weak")) →
        mdGet (mergeAccountsWithLinks c3Existing c3Incoming) "passwordStrength"
          = some (.str "weak")) :=
  merged_passwordStrength_is_weakest c3Existing c3Incoming (by decide) (by decide)

def c4Existing : Account :=
  { id := "existing-id", service := "Netflix", accountEmail := "u@x.com",
    source := "Gmail (OAuth)", discoveredAt := 1, metadata := none,
    allSources := some ["Gmail (OAuth)"], firstDiscoveredAt := some 1,
    lastDiscoveredAt := some 1 }

def c4Incoming : Account :=
  { id := "incoming-id", service := "Netflix", accountEmail := "u@x.com",
    source := "Chrome (CSV)", discoveredAt := 2, metadata := none }

/-- **C4 counterexample.** At a concrete mergeable pair with distinct ids,
the merged record's id is not the incoming record's id, contradicting the
claimed latest-wins rule. -/
theorem merge_id_not_incoming :
    (mergeAccountsWithLinks c4Existing c4Incoming).id ≠ c4Incoming.id := by
  decide

/-- **C4 (amended).** For every pair judged mergeable, the merged record's
id is the existing record's id (the first-seen survivor), not the
incoming one. -/
theorem merge_id_is_existing (e i : Account) :
    (mergeAccountsWithLinks e i).id = e.id := by
  simp only [mergeAccountsWithLinks]

/-! ## Pass-level lemmas -/

theorem isEmptyS_of_mem_sentinels (v : String)
    (h : lowerS (trimS v) ∈ (["", "-", "none", "n/a"] : List String)) :
    isEmptyS v = true := by
  simp only [List.mem_cons, List.mem_singleton, List.not_mem_nil, or_false] at h
  rcases h with h | h | h | h <;> simp [isEmptyS, h]

/-- A record with blank credentials leaves the first pass's merge map and
merge count untouched (it is bucketed as a blank row or skipped). -/
theorem pass1Step_blank_cred (st : P1State) (acct : Account)
    (hcred : (isEmptyS acct.accountEmail
              || isEmptyS (mvToKeyString (mdGet acct "password"))) = true) :
    (pass1Step st acct).mergeMap = st.mergeMap
    ∧ (pass1Step st acct).mergedCount = st.mergedCount := by
  unfold pass1Step
  by_cases hid : acct.id = ""
  · simp [hid]
  · by_cases hsvc : isEmptyS acct.service
    · simp [hid, hcred, hsvc]
    · simp [hid, hcred, hsvc]

/-- A record with blank credentials and a blank service name is a no-op
for the first pass. -/
theorem pass1Step_invisible (st : P1State) (acct : Account)
    (hcred : (isEmptyS acct.accountEmail
              || isEmptyS (mvToKeyString (mdGet acct "password"))) = true)
    (hsvc : isEmptyS acct.service = true) :
    pass1Step st acct = st := by
  unfold pass1Step
  by_cases hid : acct.id = ""
  · simp [hid]
  · simp [hid, hcred, hsvc]

/-- A record with blank credentials is a no-op for the second pass. -/
theorem pass2Step_blank_cred (snapshot : List Account) (st : P2State) (acct : Account)
    (hcred : (isEmptyS acct.accountEmail
              || isEmptyS (mvToKeyString (mdGet acct "password"))) = true) :
    pass2Step snapshot st acct = st := by
  unfold pass2Step
  by_cases hid : acct.id = ""
  · simp [hid]
  · by_cases hmem : acct.id ∈ st.processedIds
    · simp [hid, hmem]
    · simp only [Bool.or_eq_true] at hcred
      rcases hcred with h | h <;> simp [hid, hmem, h]

/-- **C9.** The sentinel strings `-`, `none`, `n/a` (case-insensitive,
after trimming) and the empty/absent value are treated as empty: a record
whose password or provider email holds one is classified as a
blank-credential record by the consolidation's grouping pass — it is
routed to the blank-row bucket or dropped, and its sentinel value is never
used as part of a credential-based merge key (the merge map and merge
count are untouched). -/
theorem sentinel_values_are_blank_credentials (st : P1State) (acct : Account)
    (h : lowerS (trimS (mvToKeyString (mdGet acct "password")))
           ∈ (["", "-", "none", "n/a"] : List String)
       ∨ lowerS (trimS acct.accountEmail) ∈ (["", "-", "none", "n/a"] : List String)) :
    (isEmptyS (mvToKeyString (mdGet acct "password")) = true
      ∨ isEmptyS acct.accountEmail = true)
    ∧ (pass1Step st acct).mergeMap = st.mergeMap
    ∧ (pass1Step st acct).mergedCount = st.mergedCount := by
  have hcred : (isEmptyS acct.accountEmail
      || isEmptyS (mvToKeyString (mdGet acct "password"))) = true := by
    rcases h with h | h
    · simp [isEmptyS_of_mem_sentinels _ h]
    · simp [isEmptyS_of_mem_sentinels _ h]
  refine ⟨?_, pass1Step_blank_cred st acct hcred⟩
  rcases h with h | h
  · exact Or.inl (isEmptyS_of_mem_sentinels _ h)
  · exact Or.inr (isEmptyS_of_mem_sentinels _ h)

def c9Acct : Account :=
  { id := "b1", service := "Netflix", accountEmail := "u@x.com", source := "Chrome (CSV)",
    discoveredAt := 3, metadata := some [("password", .str " N/A ")] }

def c9State : P1State :=
  ⟨[("k", { id := "x", service := "Hulu", accountEmail := "v@x.com",
            source := "Gmail (OAuth)", discoveredAt := 1, metadata := none })], [], 0⟩

/-- Witness for C9 at a concrete sentinel-password record and state. -/
theorem sentinel_values_are_blank_credentials_witness :
    (isEmptyS (mvToKeyString (mdGet c9Acct "password")) = true
      ∨ isEmptyS c9Acct.accountEmail = true)
    ∧ (pass1Step c9State c9Acct).mergeMap = c9State.mergeMap
    ∧ (pass1Step c9State c9Acct).mergedCount = c9State.mergedCount :=
  sentinel_values_are_blank_credentials c9State c9Acct (Or.inl (by decide))

/-- **C10.** A record with a non-missing id, blank credentials and a blank
service name is invisible to the whole consolidation: the result on any
input list containing it equals the result without it — it is omitted
from the output accounts, and neither `mergedCount` nor `removedCount`
changes. -/
theorem empty_record_omitted_without_counting (xs ys : List Account) (r : Account)
    (hid : r.id ≠ "")
    (hcred : isEmptyS r.accountEmail = true
      ∨ isEmptyS (mvToKeyString (mdGet r "password")) = true)
    (hsvc : isEmptyS r.service = true) :
    consolidateAccounts (xs ++ r :: ys) = consolidateAccounts (xs ++ ys) := by
  have hcredB : (isEmptyS r.accountEmail
      || isEmptyS (mvToKeyString (mdGet r "password"))) = true := by
    rcases hcred with h | h <;> simp [h]
  have h1 : ∀ (i : P1State), (xs ++ r :: ys).foldl pass1Step i = (xs ++ ys).foldl pass1Step i := by
    intro i
    rw [List.foldl_append, List.foldl_append, List.foldl_cons,
      pass1Step_invisible _ _ hcredB hsvc]
  have h2 : ∀ (snapshot : List Account) (i : P2State),
      (xs ++ r :: ys).foldl (pass2Step snapshot) i
        = (xs ++ ys).foldl (pass2Step snapshot) i := by
    intro snapshot i
    rw [List.foldl_append, List.foldl_append, List.foldl_cons,
      pass2Step_blank_cred snapshot _ _ hcredB]
  simp only [consolidateAccounts, h1, h2]

def c10Invisible : Account :=
  { id := "9", service := "", accountEmail := "u@x.com", source := "Gmail (OAuth)",
    discoveredAt := 5, metadata := some [("link", .str "https://zzz.com")] }

def c10Other : Account :=
  { id := "1", service := "Netflix", accountEmail := "u@x.com", source := "Gmail (OAuth)",
    discoveredAt := 1, metadata := some [("password", .str "p"), ("link", .str "https://netflix.com")] }

/-- Witness for C10 at a concrete empty record inserted into a list. -/
theorem empty_record_omitted_without_counting_witness :
    consolidateAccounts ([c10Other] ++ c10Invisible :: [])
      = consolidateAccounts ([c10Other] ++ []) :=
  empty_record_omitted_without_counting [c10Other] [] c10Invisible
    (by decide) (Or.inr (by decide)) (by decide)

/-- The single-record input on which a second consolidation run changes
the result. -/
def c1Input : Account :=
  { id := "1", service := "Netflix", accountEmail := "u@x.com", source := "Gmail (OAuth)",
    discoveredAt := 100,
    metadata := some [("password", .str "p"), ("link", .str "https://netflix.com")] }

/-- **C1 (failure of the code).** Running `consolidateAccounts` a second
time on its own output changes the output: the first run keeps the
record's original source `Gmail (OAuth)` in `allSources` while recomputing
`source` from the link to `Netflix`; the second run then resets
`allSources` to `[Netflix]`, so the accounts arrays differ (the second
run does report zero merges). -/
theorem consolidate_not_idempotent_on_failing_input :
    (consolidateAccounts ((consolidateAccounts [c1Input]).accounts)).accounts
      ≠ (consolidateAccounts [c1Input]).accounts
    ∧ (consolidateAccounts [c1Input]).accounts.map (fun a => a.allSources)
        = [some ["Gmail (OAuth)"]]
    ∧ (consolidateAccounts ((consolidateAccounts [c1Input]).accounts)).accounts.map
        (fun a => a.allSources) = [some ["Netflix"]]
    ∧ (consolidateAccounts ((consolidateAccounts [c1Input]).accounts)).mergedCount = 0 := by
  decide

/-! ## The similarity threshold -/

/-- Twenty distinct one-letter words. -/
def c8s1 : String := "a b c d e f g h i j k l m n o p q r s t"

/-- Seventeen of the same words, reordered so neither normalized string
contains the other. -/
def c8s2 : String := "q a b c d e f g h i j k l m n o p"

/-- On inputs that reach the Jaccard branch, `calculateStringSimilarity`
is the explicit fraction intersection-size over union-size. -/
theorem calcSim_eq (s t : String) (i u : Nat)
    (hne : s ≠ t)
    (hl : (decide (s.data.length = 0) || decide (t.data.length = 0)) = false)
    (hw : (decide (((splitWsS s).filter (fun w => !commonWords.contains w)).length = 0)
        && decide (((splitWsS t).filter (fun w => !commonWords.contains w)).length = 0)) = false)
    (hi : ((uniqS ((splitWsS s).filter (fun w => !commonWords.contains w))).filter
        (fun x => (uniqS ((splitWsS t).filter (fun w => !commonWords.contains w))).contains
          x)).length = i)
    (hu : (uniqS (uniqS ((splitWsS s).filter (fun w => !commonWords.contains w))
        ++ uniqS ((splitWsS t).filter (fun w => !commonWords.contains w)))).length = u)
    (hu0 : u ≠ 0) :
    calculateStringSimilarity s t = (i : ℚ) / (u : ℚ) := by
  simp only [calculateStringSimilarity]
  rw [if_neg hne, if_neg (by rw [hl]; exact Bool.false_ne_true),
    if_neg (by rw [hw]; exact Bool.false_ne_true), hi, hu, if_neg hu0]

/-- **C8 counterexample.** A concrete pair of non-empty service names on
which the earlier ladder rungs fail and the Jaccard similarity is exactly
`0.85 = 17/20`, yet the matcher declares them different — the threshold in
the code is strict (`> 0.85`), not `≥ 0.85` as claimed. -/
theorem similarity_at_085_is_not_a_match :
    isEmptyS c8s1 = false ∧ isEmptyS c8s2 = false
    ∧ normalizeServiceNameForMatching c8s1 ≠ normalizeServiceNameForMatching c8s2
    ∧ ((containsS (normalizeServiceNameForMatching c8s1) (normalizeServiceNameForMatching c8s2)
        || containsS (normalizeServiceNameForMatching c8s2) (normalizeServiceNameForMatching c8s1))
       && decide (min (normalizeServiceNameForMatching c8s1).data.length
          (normalizeServiceNameForMatching c8s2).data.length ≥ 4)) = false
    ∧ calculateStringSimilarity (normalizeServiceNameForMatching c8s1)
        (normalizeServiceNameForMatching c8s2) = 85 / 100
    ∧ areServicesSimilar c8s1 c8s2 = false := by
  have hval : calculateStringSimilarity (normalizeServiceNameForMatching c8s1)
      (normalizeServiceNameForMatching c8s2) = (17 : ℚ) / (20 : ℚ) :=
    calcSim_eq _ _ 17 20 (by decide) (by decide) (by decide) (by decide) (by decide)
      (by decide)
  refine ⟨by decide, by decide, by decide, by decide, ?_, ?_⟩
  · rw [hval]; norm_num
  · simp only [areServicesSimilar]
    rw [if_neg (by decide), if_neg (by decide), if_neg (by decide),
      if_neg (by rw [hval]; norm_num)]

/-- **C8 (amended).** For every pair of non-empty service names on which
the earlier ladder rungs (exact normalized match; containment with the
shorter length at least 4) fail, the matcher declares them the same
service exactly when the Jaccard similarity is strictly greater than
`0.85`; a pair whose similarity is exactly `0.85` is not a match. -/
theorem services_similar_iff_similarity_above_085 (s1 s2 : String)
    (h1 : isEmptyS s1 = false) (h2 : isEmptyS s2 = false)
    (hne : normalizeServiceNameForMatching s1 ≠ normalizeServiceNameForMatching s2)
    (hcont : ((containsS (normalizeServiceNameForMatching s1) (normalizeServiceNameForMatching s2)
        || containsS (normalizeServiceNameForMatching s2) (normalizeServiceNameForMatching s1))
       && decide (min (normalizeServiceNameForMatching s1).data.length
          (normalizeServiceNameForMatching s2).data.length ≥ 4)) = false) :
    areServicesSimilar s1 s2 = true
      ↔ calculateStringSimilarity (normalizeServiceNameForMatching s1)
          (normalizeServiceNameForMatching s2) > (85 : ℚ) / 100 := by
  have key : areServicesSimilar s1 s2
      = (if calculateStringSimilarity (normalizeServiceNameForMatching s1)
            (normalizeServiceNameForMatching s2) > (85 : ℚ) / 100 then true else false) := by
    simp only [areServicesSimilar]
    rw [if_neg (by rw [h1, h2]; decide), if_neg hne,
      if_neg (by rw [hcont]; exact Bool.false_ne_true)]
  rw [key]
  by_cases hsim : calculateStringSimilarity (normalizeServiceNameForMatching s1)
      (normalizeServiceNameForMatching s2) > (85 : ℚ) / 100
  · rw [if_pos hsim]; exact iff_of_true rfl hsim
  · rw [if_neg hsim]; exact iff_of_false (by simp) hsim

def c8w1 : String := "alpha beta"

def c8w2 : String := "alpha gamma"

/-- Witness for the amended C8 at a concrete pair (similarity `1/3`). -/
theorem services_similar_iff_similarity_above_085_witness :
    areServicesSimilar c8w1 c8w2 = true
      ↔ calculateStringSimilarity (normalizeServiceNameForMatching c8w1)
          (normalizeServiceNameForMatching c8w2) > (85 : ℚ) / 100 :=
  services_similar_iff_similarity_above_085 c8w1 c8w2
    (by decide) (by decide) (by decide) (by decide)

/-! ## The needsReview invariant of the normalizer -/

/-- **C7.** Whenever `normalizeAccount` returns a record with
`needsReview = false`, the returned `providerEmail` passes the email
validator, the returned `serviceLink` passes the URL validator, and the
returned `serviceName` passes the service-name validator. -/
theorem needsReview_false_implies_fields_valid (account : Account)
    (h : (normalizeAccount account).needsReview = false) :
    isValidEmail (normalizeAccount account).providerEmail = true
    ∧ isValidUrl (normalizeAccount account).serviceLink = true
    ∧ isValidServiceName (normalizeAccount account).serviceName = true := by
  simp only [normalizeAccount] at h ⊢
  simp only [Bool.or_eq_false_iff, Bool.not_eq_false', Bool.and_eq_true,
    decide_eq_true_eq] at h
  exact ⟨h.1.1.2, h.1.2.2, h.2.2⟩

def c7Acct : Account :=
  { id := "1", service := "Spotify", accountEmail := "user@example.com",
    source := "Gmail (OAuth)", discoveredAt := 0, metadata := none }

/-- Witness for C7 at a concrete clean record (its normalization has
`needsReview = false`). -/
theorem needsReview_false_implies_fields_valid_witness :
    isValidEmail (normalizeAccount c7Acct).providerEmail = true
    ∧ isValidUrl (normalizeAccount c7Acct).serviceLink = true
    ∧ isValidServiceName (normalizeAccount c7Acct).serviceName = true :=
  needsReview_false_implies_fields_valid c7Acct (by decide)


/-! # The link combiner: idempotence and associativity -/

/-! ## Character facts -/

theorem char_toNat_ofNat (n : Nat) (h : n.isValidChar) : (Char.ofNat n).toNat = n := by
  unfold Char.ofNat
  rw [dif_pos h]
  rfl

theorem char_eq_iff_toNat (a b : Char) : a = b ↔ a.toNat = b.toNat := by
  rw [Char.ext_iff, UInt32.ext_iff]
  rfl

theorem lowerChar_toNat (c : Char) (h1 : 'A' ≤ c) (h2 : c ≤ 'Z') :
    (lowerChar c).toNat = c.toNat + 32 := by
  have h1' : 65 ≤ c.toNat := h1
  have h2' : c.toNat ≤ 90 := h2
  unfold lowerChar
  rw [if_pos ⟨h1, h2⟩]
  exact char_toNat_ofNat _ (Or.inl (by omega))

theorem lowerChar_eq_self (c : Char) (h : ¬ ('A' ≤ c ∧ c ≤ 'Z')) : lowerChar c = c := by
  unfold lowerChar
  rw [if_neg h]

theorem lowerChar_comma (c : Char) : lowerChar c = ',' ↔ c = ',' := by
  by_cases h : 'A' ≤ c ∧ c ≤ 'Z'
  · have e := lowerChar_toNat c h.1 h.2
    have h1' : 65 ≤ c.toNat := h.1
    have h2' : c.toNat ≤ 90 := h.2
    have h44 : (',' : Char).toNat = 44 := rfl
    rw [char_eq_iff_toNat, char_eq_iff_toNat c, e, h44]
    omega
  · rw [lowerChar_eq_self c h]

theorem isWs_false_of (c : Char) (hlo : 14 ≤ c.toNat) (hne : c.toNat ≠ 32) :
    isWsChar c = false := by
  unfold isWsChar
  simp only [Bool.or_eq_false_iff, decide_eq_false_iff_not, char_eq_iff_toNat,
    show (' ' : Char).toNat = 32 from rfl, show ('\t' : Char).toNat = 9 from rfl,
    show ('\n' : Char).toNat = 10 from rfl, show ('\x0d' : Char).toNat = 13 from rfl]
  omega

theorem isWs_lowerChar (c : Char) : isWsChar (lowerChar c) = isWsChar c := by
  by_cases h : 'A' ≤ c ∧ c ≤ 'Z'
  · have e := lowerChar_toNat c h.1 h.2
    have h1' : 65 ≤ c.toNat := h.1
    have h2' : c.toNat ≤ 90 := h.2
    rw [isWs_false_of (lowerChar c) (by omega) (by omega),
      isWs_false_of c (by omega) (by omega)]
  · rw [lowerChar_eq_self c h]

theorem lowerChar_idem (c : Char) : lowerChar (lowerChar c) = lowerChar c := by
  by_cases h : 'A' ≤ c ∧ c ≤ 'Z'
  · have e := lowerChar_toNat c h.1 h.2
    have h1' : 65 ≤ c.toNat := h.1
    have h2' : c.toNat ≤ 90 := h.2
    refine lowerChar_eq_self _ ?_
    intro hh
    have ha : 65 ≤ (lowerChar c).toNat := hh.1
    have hb : (lowerChar c).toNat ≤ 90 := hh.2
    omega
  · rw [lowerChar_eq_self c h, lowerChar_eq_self c h]

theorem isWs_comma : isWsChar ',' = false := rfl

/-! ## Trim and lower-case facts on character lists -/

theorem trimLeftL_cons_ws (c : Char) (l : List Char) (h : isWsChar c = true) :
    trimLeftL (c :: l) = trimLeftL l := by
  simp [trimLeftL, List.dropWhile_cons, h]

theorem trimLeftL_cons_not_ws (c : Char) (l : List Char) (h : isWsChar c = false) :
    trimLeftL (c :: l) = c :: l := by
  simp [trimLeftL, List.dropWhile_cons, h]

theorem trimLeftL_idem (l : List Char) : trimLeftL (trimLeftL l) = trimLeftL l := by
  induction l with
  | nil => rfl
  | cons c cs ih =>
    by_cases h : isWsChar c
    · rw [trimLeftL_cons_ws c cs h, ih]
    · rw [trimLeftL_cons_not_ws c cs (by simp [h]),
        trimLeftL_cons_not_ws c cs (by simp [h])]

theorem trimRightL_cons (c : Char) (l : List Char) :
    trimRightL (c :: l) = match trimRightL l with
      | [] => if isWsChar c then [] else [c]
      | r => c :: r := rfl

theorem trimRightL_eq_nil_iff (l : List Char) :
    trimRightL l = [] ↔ ∀ c ∈ l, isWsChar c = true := by
  induction l with
  | nil => simp [trimRightL]
  | cons c cs ih =>
    rw [trimRightL_cons]
    match hr : trimRightL cs with
    | [] =>
      rw [hr] at ih
      simp only [List.mem_cons]
      constructor
      · intro h
        by_cases hc : isWsChar c
        · intro x hx
          rcases hx with rfl | hx
          · exact hc
          · exact (ih.mp rfl) x hx
        · rw [if_neg hc] at h
          exact absurd h (by simp)
      · intro h
        rw [if_pos (h c (Or.inl rfl))]
    | r :: rs =>
      rw [hr] at ih
      simp only [List.mem_cons]
      constructor
      · intro h
        exact absurd h (by simp)
      · intro h
        have : (r :: rs : List Char) = [] := ih.mpr (fun x hx => h x (Or.inr hx))
        simp at this

theorem trimRightL_idem (l : List Char) : trimRightL (trimRightL l) = trimRightL l := by
  induction l with
  | nil => rfl
  | cons c cs ih =>
    rw [trimRightL_cons]
    match hr : trimRightL cs with
    | [] =>
      by_cases hc : isWsChar c
      · rw [if_pos hc]; rfl
      · rw [if_neg hc, trimRightL_cons, if_neg hc]; rfl
    | r :: rs =>
      rw [hr] at ih
      rw [trimRightL_cons, ih]

theorem trimRightL_cons_nil (c : Char) (l : List Char) (h : trimRightL l = []) :
    trimRightL (c :: l) = if isWsChar c then [] else [c] := by
  rw [trimRightL_cons, h]

theorem trimRightL_cons_cons (c : Char) (l r : List Char) (a : Char)
    (h : trimRightL l = a :: r) : trimRightL (c :: l) = c :: a :: r := by
  rw [trimRightL_cons, h]

theorem trim_commute (l : List Char) :
    trimRightL (trimLeftL l) = trimLeftL (trimRightL l) := by
  induction l with
  | nil => rfl
  | cons c cs ih =>
    by_cases hc : isWsChar c
    · rw [trimLeftL_cons_ws c cs hc, ih]
      rcases hr : trimRightL cs with _ | ⟨r, rs⟩
      · rw [trimRightL_cons_nil c cs hr, if_pos hc]
      · rw [trimRightL_cons_cons c cs rs r hr, trimLeftL_cons_ws c (r :: rs) hc]
    · have hcf : isWsChar c = false := by simp [hc]
      rw [trimLeftL_cons_not_ws c cs hcf]
      rcases hr : trimRightL cs with _ | ⟨r, rs⟩
      · rw [trimRightL_cons_nil c cs hr, if_neg hc, trimLeftL_cons_not_ws c [] hcf]
      · rw [trimRightL_cons_cons c cs rs r hr, trimLeftL_cons_not_ws c (r :: rs) hcf]

theorem trimL_idem (l : List Char) : trimL (trimL l) = trimL l := by
  unfold trimL
  rw [← trim_commute (trimLeftL l), trimRightL_idem, trimLeftL_idem]

theorem trimL_trimLeftL (l : List Char) : trimL (trimLeftL l) = trimL l := by
  unfold trimL
  rw [trimLeftL_idem]

theorem trimL_trimRightL (l : List Char) : trimL (trimRightL l) = trimL l := by
  unfold trimL
  rw [← trim_commute l, trimRightL_idem]

theorem trimL_cons_ws (c : Char) (l : List Char) (h : isWsChar c = true) :
    trimL (c :: l) = trimL l := by
  unfold trimL
  rw [trimLeftL_cons_ws c l h]

theorem lowerL_nil : lowerL [] = [] := rfl

theorem lowerL_cons (c : Char) (l : List Char) :
    lowerL (c :: l) = lowerChar c :: lowerL l := rfl

theorem lowerL_trimLeftL (l : List Char) : lowerL (trimLeftL l) = trimLeftL (lowerL l) := by
  unfold lowerL trimLeftL
  rw [List.dropWhile_map]
  have : (isWsChar ∘ lowerChar) = isWsChar := funext isWs_lowerChar
  rw [this]

theorem lowerL_trimRightL (l : List Char) : lowerL (trimRightL l) = trimRightL (lowerL l) := by
  induction l with
  | nil => rfl
  | cons c cs ih =>
    rw [lowerL_cons]
    rcases hr : trimRightL cs with _ | ⟨r, rs⟩
    · have h2 : trimRightL (lowerL cs) = [] := by rw [← ih, hr]; rfl
      rw [trimRightL_cons_nil c cs hr, trimRightL_cons_nil (lowerChar c) (lowerL cs) h2,
        isWs_lowerChar]
      by_cases hc : isWsChar c
      · rw [if_pos hc, if_pos hc]; rfl
      · rw [if_neg hc, if_neg hc]; rfl
    · have h2 : trimRightL (lowerL cs) = lowerChar r :: lowerL rs := by
        rw [← ih, hr]; rfl
      rw [trimRightL_cons_cons c cs rs r hr,
        trimRightL_cons_cons (lowerChar c) (lowerL cs) (lowerL rs) (lowerChar r) h2]
      rfl

theorem lowerL_trimL (l : List Char) : lowerL (trimL l) = trimL (lowerL l) := by
  unfold trimL
  rw [lowerL_trimRightL, lowerL_trimLeftL]

theorem lowerL_idem (l : List Char) : lowerL (lowerL l) = lowerL l := by
  unfold lowerL
  rw [List.map_map]
  exact List.map_congr_left (fun c _ => lowerChar_idem c)

theorem comma_mem_trimLeftL (l : List Char) (h : ',' ∈ l) : ',' ∈ trimLeftL l := by
  induction l with
  | nil => simp at h
  | cons c cs ih =>
    by_cases hc : isWsChar c
    · rw [trimLeftL_cons_ws c cs hc]
      rcases List.mem_cons.mp h with hh | hh
      · exfalso
        rw [← hh] at hc
        rw [isWs_comma] at hc
        exact absurd hc (by simp)
      · exact ih hh
    · have hcf : isWsChar c = false := by simp [hc]
      rw [trimLeftL_cons_not_ws c cs hcf]
      exact h

theorem comma_mem_trimRightL (l : List Char) (h : ',' ∈ l) : ',' ∈ trimRightL l := by
  induction l with
  | nil => simp at h
  | cons c cs ih =>
    rcases hr : trimRightL cs with _ | ⟨r, rs⟩
    · have hall := (trimRightL_eq_nil_iff cs).mp hr
      have hcm : c = ',' := by
        rcases List.mem_cons.mp h with hh | hh
        · exact hh.symm
        · exfalso
          have := hall ',' hh
          rw [isWs_comma] at this
          exact absurd this (by simp)
      have hcf : isWsChar c = false := by rw [hcm]; exact isWs_comma
      rw [trimRightL_cons_nil c cs hr, if_neg (by simp [hcf])]
      rw [hcm]
      exact List.mem_singleton.mpr rfl
    · rw [trimRightL_cons_cons c cs rs r hr]
      rcases List.mem_cons.mp h with hh | hh
      · rw [← hh]; exact List.mem_cons_self _ _
      · have := ih hh
        rw [hr] at this
        exact List.mem_cons_of_mem c this

theorem comma_mem_trimL (l : List Char) (h : ',' ∈ l) : ',' ∈ trimL l :=
  comma_mem_trimRightL _ (comma_mem_trimLeftL _ h)

theorem mem_trimLeftL_sub (a : Char) (l : List Char) (h : a ∈ trimLeftL l) : a ∈ l :=
  List.Sublist.mem h (List.dropWhile_sublist _)

theorem mem_trimRightL_sub (a : Char) (l : List Char) (h : a ∈ trimRightL l) : a ∈ l := by
  induction l with
  | nil => simp [trimRightL] at h
  | cons c cs ih =>
    rcases hr : trimRightL cs with _ | ⟨r, rs⟩
    · rw [trimRightL_cons_nil c cs hr] at h
      by_cases hc : isWsChar c
      · rw [if_pos hc] at h; simp at h
      · rw [if_neg hc] at h
        rw [List.mem_singleton.mp h]
        exact List.mem_cons_self _ _
    · rw [trimRightL_cons_cons c cs rs r hr] at h
      rcases List.mem_cons.mp h with hh | hh
      · rw [hh]; exact List.mem_cons_self _ _
      · rw [← hr] at hh
        exact List.mem_cons_of_mem c (ih hh)

theorem mem_trimL_sub (a : Char) (l : List Char) (h : a ∈ trimL l) : a ∈ l :=
  mem_trimLeftL_sub a l (mem_trimRightL_sub a (trimLeftL l) h)

theorem comma_mem_lowerL (l : List Char) : ',' ∈ lowerL l ↔ ',' ∈ l := by
  unfold lowerL
  rw [List.mem_map]
  constructor
  · rintro ⟨d, hd, hde⟩
    rw [(lowerChar_comma d).mp hde] at hd
    exact hd
  · intro h
    exact ⟨',', h, (lowerChar_comma ',').mpr rfl⟩

/-! ## Comma-splitting facts -/

theorem splitCommaL_ne_nil (l : List Char) : splitCommaL l ≠ [] := by
  induction l with
  | nil => simp [splitCommaL]
  | cons c cs ih =>
    unfold splitCommaL
    by_cases hc : c = ','
    · simp [hc]
    · rw [if_neg hc]
      rcases hs : splitCommaL cs with _ | ⟨q, t⟩
      · simp
      · simp

theorem splitCommaL_cons_comma (l : List Char) :
    splitCommaL (',' :: l) = [] :: splitCommaL l := by
  simp [splitCommaL]

theorem splitCommaL_cons_ne (c : Char) (l : List Char) (q : List Char) (t : List (List Char))
    (hc : c ≠ ',') (hs : splitCommaL l = q :: t) :
    splitCommaL (c :: l) = (c :: q) :: t := by
  unfold splitCommaL
  rw [if_neg hc, hs]

theorem exists_splitCommaL (l : List Char) :
    ∃ q t, splitCommaL l = q :: t := by
  rcases hs : splitCommaL l with _ | ⟨q, t⟩
  · exact absurd hs (splitCommaL_ne_nil l)
  · exact ⟨q, t, rfl⟩

theorem splitCommaL_append (a b : List Char) :
    splitCommaL (a ++ ',' :: b) = splitCommaL a ++ splitCommaL b := by
  induction a with
  | nil =>
    rw [List.nil_append, splitCommaL_cons_comma]
    rfl
  | cons c cs ih =>
    by_cases hc : c = ','
    · subst hc
      rw [List.cons_append, splitCommaL_cons_comma, splitCommaL_cons_comma, ih]
      rfl
    · obtain ⟨q, t, hs⟩ := exists_splitCommaL cs
      have hs2 : splitCommaL (cs ++ ',' :: b) = q :: (t ++ splitCommaL b) := by
        rw [ih, hs]; rfl
      rw [List.cons_append, splitCommaL_cons_ne c _ q (t ++ splitCommaL b) hc hs2,
        splitCommaL_cons_ne c cs q t hc hs]
      rfl

theorem splitCommaL_no_comma (l : List Char) (h : ',' ∉ l) : splitCommaL l = [l] := by
  induction l with
  | nil => rfl
  | cons c cs ih =>
    have hc : c ≠ ',' := fun hh => h (by rw [hh]; exact List.mem_cons_self _ _)
    have hcs : ',' ∉ cs := fun hh => h (List.mem_cons_of_mem c hh)
    rw [splitCommaL_cons_ne c cs cs [] hc (ih hcs)]

theorem parts_no_comma (l p : List Char) (h : p ∈ splitCommaL l) : ',' ∉ p := by
  induction l generalizing p with
  | nil =>
    simp only [splitCommaL] at h
    rw [List.mem_singleton.mp h]
    simp
  | cons c cs ih =>
    by_cases hc : c = ','
    · subst hc
      rw [splitCommaL_cons_comma] at h
      rcases List.mem_cons.mp h with hh | hh
      · rw [hh]; simp
      · exact ih p hh
    · obtain ⟨q, t, hs⟩ := exists_splitCommaL cs
      rw [splitCommaL_cons_ne c cs q t hc hs] at h
      rcases List.mem_cons.mp h with hh | hh
      · rw [hh]
        intro hm
        rcases List.mem_cons.mp hm with h2 | h2
        · exact hc h2.symm
        · exact ih q (by rw [hs]; exact List.mem_cons_self _ _) h2
      · exact ih p (by rw [hs]; exact List.mem_cons_of_mem q hh)

theorem splitCommaL_lowerL (l : List Char) :
    splitCommaL (lowerL l) = (splitCommaL l).map lowerL := by
  induction l with
  | nil => rfl
  | cons c cs ih =>
    rw [lowerL_cons]
    by_cases hc : c = ','
    · subst hc
      have hl : lowerChar ',' = ',' := (lowerChar_comma ',').mpr rfl
      rw [hl, splitCommaL_cons_comma, splitCommaL_cons_comma, ih]
      rfl
    · have hlc : lowerChar c ≠ ',' := fun hh => hc ((lowerChar_comma c).mp hh)
      obtain ⟨q, t, hs⟩ := exists_splitCommaL cs
      have hs2 : splitCommaL (lowerL cs) = lowerL q :: t.map lowerL := by
        rw [ih, hs]; rfl
      rw [splitCommaL_cons_ne _ _ _ _ hlc hs2, splitCommaL_cons_ne c cs q t hc hs]
      rfl

/-! ## Splitting commutes with trimming up to part-trims -/

theorem q_left (l : List Char) :
    (splitCommaL (trimLeftL l)).map trimL = (splitCommaL l).map trimL := by
  induction l with
  | nil => rfl
  | cons c cs ih =>
    by_cases hc : isWsChar c
    · rw [trimLeftL_cons_ws c cs hc, ih]
      have hcne : c ≠ ',' := by
        intro hh
        rw [hh, isWs_comma] at hc
        exact absurd hc (by simp)
      obtain ⟨q, t, hs⟩ := exists_splitCommaL cs
      rw [splitCommaL_cons_ne c cs q t hcne hs, hs, List.map_cons, List.map_cons,
        trimL_cons_ws c q hc]
    · rw [trimLeftL_cons_not_ws c cs (by simp [hc])]

theorem q_right (l : List Char) :
    (splitCommaL (trimRightL l)).map trimRightL = (splitCommaL l).map trimRightL := by
  induction l with
  | nil => rfl
  | cons c cs ih =>
    rcases hr : trimRightL cs with _ | ⟨r, rs⟩
    · have hall := (trimRightL_eq_nil_iff cs).mp hr
      have hnc : ',' ∉ cs := by
        intro hm
        have := hall ',' hm
        rw [isWs_comma] at this
        exact absurd this (by simp)
      have hsplitcs : splitCommaL cs = [cs] := splitCommaL_no_comma cs hnc
      by_cases hc : isWsChar c
      · have hcne : c ≠ ',' := by
          intro hh
          rw [hh, isWs_comma] at hc
          exact absurd hc (by simp)
        have hcc : trimRightL (c :: cs) = [] := by
          rw [trimRightL_cons_nil c cs hr, if_pos hc]
        rw [hcc, splitCommaL_cons_ne c cs cs [] hcne hsplitcs,
          show splitCommaL ([] : List Char) = [[]] from rfl]
        simp only [List.map_cons, List.map_nil]
        rw [hcc]
        rfl
      · have hcc : trimRightL (c :: cs) = [c] := by
          rw [trimRightL_cons_nil c cs hr, if_neg hc]
        rw [hcc]
        by_cases hcm : c = ','
        · subst hcm
          rw [splitCommaL_cons_comma, splitCommaL_cons_comma, hsplitcs,
            show splitCommaL ([] : List Char) = [[]] from rfl]
          simp only [List.map_cons, List.map_nil]
          rw [hr]
          rfl
        · have h1 : splitCommaL [c] = [[c]] := by
            refine splitCommaL_no_comma [c] ?_
            intro hm
            exact hcm (List.mem_singleton.mp hm).symm
          rw [h1, splitCommaL_cons_ne c cs cs [] hcm hsplitcs]
          simp only [List.map_cons, List.map_nil]
          have h2 : trimRightL [c] = [c] := by
            rw [trimRightL_cons_nil c [] rfl, if_neg hc]
          rw [h2, hcc]
    · have hcc : trimRightL (c :: cs) = c :: r :: rs := trimRightL_cons_cons c cs rs r hr
      rw [hcc]
      rw [hr] at ih
      by_cases hcm : c = ','
      · subst hcm
        rw [splitCommaL_cons_comma, splitCommaL_cons_comma]
        simp only [List.map_cons]
        rw [ih]
      · obtain ⟨q, t, hq⟩ := exists_splitCommaL (r :: rs)
        obtain ⟨q2, t2, hq2⟩ := exists_splitCommaL cs
        rw [splitCommaL_cons_ne c _ q t hcm hq, splitCommaL_cons_ne c cs q2 t2 hcm hq2]
        simp only [List.map_cons]
        rw [hq, hq2] at ih
        simp only [List.map_cons] at ih
        injection ih with ih1 ih2
        rw [ih2]
        rcases hq3 : trimRightL q with _ | ⟨a, b⟩
        · have hq4 : trimRightL q2 = [] := by rw [← ih1, hq3]
          rw [trimRightL_cons_nil c q hq3, trimRightL_cons_nil c q2 hq4]
        · have hq4 : trimRightL q2 = a :: b := by rw [← ih1, hq3]
          rw [trimRightL_cons_cons c q b a hq3, trimRightL_cons_cons c q2 b a hq4]

theorem q_trim (l : List Char) :
    (splitCommaL (trimL l)).map trimL = (splitCommaL l).map trimL := by
  have hfun : trimL = fun x => trimLeftL (trimRightL x) := by
    funext x
    unfold trimL
    exact trim_commute x
  have step : ∀ X : List Char,
      (splitCommaL (trimRightL X)).map trimL = (splitCommaL X).map trimL := by
    intro X
    rw [hfun]
    have e1 : List.map (fun x => trimLeftL (trimRightL x)) (splitCommaL (trimRightL X))
        = List.map trimLeftL (List.map trimRightL (splitCommaL (trimRightL X))) := by
      rw [List.map_map]; rfl
    have e2 : List.map (fun x => trimLeftL (trimRightL x)) (splitCommaL X)
        = List.map trimLeftL (List.map trimRightL (splitCommaL X)) := by
      rw [List.map_map]; rfl
    rw [e1, e2, q_right X]
  show (splitCommaL (trimRightL (trimLeftL l))).map trimL = (splitCommaL l).map trimL
  rw [step (trimLeftL l), q_left l]

/-! ## String-level parsing layer -/

/-- Comma-split, part-trim and empty-filter — the string side of
`linkItems`, and the parse each later pass applies to a combined link
string. -/
def PJ (s : String) : List String :=
  ((splitCommaS s).map trimS).filter (fun l => !isEmptyS l)

/-- The join-then-reparse canonical list of a combined link string:
exactly the deduplicated links the combiner itself extracts from it. -/
def canonLinks (s : String) : List String :=
  dedupLinks (linkItems (some (.str s))) []

/-- `n = "" || n = "-" || n = "none" || n = "n/a"` on an already
normalized string. -/
def isEmptySn (n : String) : Bool :=
  n = "" || n = "-" || n = "none" || n = "n/a"

theorem linkItems_str (s : String) : linkItems (some (.str s)) = PJ s := by
  by_cases h : s = ""
  · subst h
    decide
  · simp [linkItems, PJ, h]

theorem string_data_mk (l : List Char) : (⟨l⟩ : String).data = l := rfl

theorem trimS_mk (l : List Char) : trimS ⟨l⟩ = ⟨trimL l⟩ := rfl

theorem lowerTrimS_mk (l : List Char) : lowerTrimS ⟨l⟩ = ⟨trimL (lowerL l)⟩ := rfl

theorem lowerS_trimS (s : String) : lowerS (trimS s) = lowerTrimS s := by
  unfold lowerS trimS lowerTrimS
  rw [string_data_mk]
  exact congrArg String.mk (lowerL_trimL s.data)

theorem isEmptyS_eq (s : String) : isEmptyS s = isEmptySn (lowerTrimS s) := by
  unfold isEmptyS isEmptySn
  rw [lowerS_trimS]

theorem norm_trimS (s : String) : lowerTrimS (trimS s) = lowerTrimS s := by
  unfold lowerTrimS trimS
  rw [string_data_mk]
  refine congrArg String.mk ?_
  rw [lowerL_trimL, trimL_idem]

theorem norm_idem (s : String) : lowerTrimS (lowerTrimS s) = lowerTrimS s := by
  unfold lowerTrimS
  rw [string_data_mk]
  refine congrArg String.mk ?_
  rw [lowerL_trimL, lowerL_idem, trimL_idem]

theorem isEmptyS_trimS (s : String) : isEmptyS (trimS s) = isEmptyS s := by
  rw [isEmptyS_eq, isEmptyS_eq, norm_trimS]

theorem isEmptyS_norm (s : String) : isEmptyS (lowerTrimS s) = isEmptyS s := by
  rw [isEmptyS_eq, isEmptyS_eq, norm_idem]

theorem trimS_idem (s : String) : trimS (trimS s) = trimS s := by
  unfold trimS
  rw [string_data_mk]
  exact congrArg String.mk (trimL_idem s.data)

/-- `PJ` as a char-level computation. -/
theorem PJ_data (s : String) :
    PJ s = ((splitCommaL s.data).map (fun q => (⟨trimL q⟩ : String))).filter
      (fun l => !isEmptyS l) := by
  unfold PJ splitCommaS
  rw [List.map_map]
  rfl

/-- `PJ` of a trimmed string: trimming outside the commas is absorbed by
the per-part trims. -/
theorem PJ_trimS (s : String) : PJ (trimS s) = PJ s := by
  rw [PJ_data, PJ_data]
  unfold trimS
  rw [string_data_mk]
  have key : (splitCommaL (trimL s.data)).map (fun q => (⟨trimL q⟩ : String))
      = (splitCommaL s.data).map (fun q => (⟨trimL q⟩ : String)) := by
    have e1 : (fun q => (⟨trimL q⟩ : String))
        = (fun l => (⟨l⟩ : String)) ∘ trimL := rfl
    rw [e1, ← List.map_map, ← List.map_map, q_trim]
  rw [key]

theorem PJ_mem_not_empty (s p : String) (h : p ∈ PJ s) : isEmptyS p = false := by
  unfold PJ at h
  have := List.of_mem_filter h
  simpa using this

theorem PJ_mem_shape (s p : String) (h : p ∈ PJ s) :
    ∃ q ∈ splitCommaL s.data, p = (⟨trimL q⟩ : String) := by
  rw [PJ_data] at h
  have hm := List.mem_of_mem_filter h
  obtain ⟨q, hq, hqe⟩ := List.mem_map.mp hm
  exact ⟨q, hq, hqe.symm⟩

theorem comma_not_mem_of_emptySn (n : String) (h : isEmptySn n = true) :
    ',' ∉ n.data := by
  unfold isEmptySn at h
  simp only [Bool.or_eq_true, decide_eq_true_eq] at h
  rcases h with ((h | h) | h) | h <;> subst h <;> decide

theorem comma_not_mem_of_empty (s : String) (h : isEmptyS s = true) :
    ',' ∉ s.data := by
  intro hm
  rw [isEmptyS_eq] at h
  have h1 : ',' ∈ (lowerTrimS s).data := by
    unfold lowerTrimS
    rw [string_data_mk]
    exact comma_mem_trimL _ ((comma_mem_lowerL s.data).mpr hm)
  exact comma_not_mem_of_emptySn (lowerTrimS s) h h1

theorem PJ_empty (s : String) (h : isEmptyS s = true) : PJ s = [] := by
  rw [PJ_data, splitCommaL_no_comma s.data (comma_not_mem_of_empty s h)]
  have hE : isEmptyS (⟨trimL s.data⟩ : String) = true := by
    rw [show (⟨trimL s.data⟩ : String) = trimS s from rfl, isEmptyS_trimS, h]
  simp [hE]

/-- Every element of a `PJ` image is comma-free, trimmed and non-empty,
so re-parsing it returns exactly itself. -/
theorem PJ_part_canonical (s p : String) (h : p ∈ PJ s) : PJ p = [p] := by
  obtain ⟨q, hq, hqe⟩ := PJ_mem_shape s p h
  have hne := PJ_mem_not_empty s p h
  have hnc : ',' ∉ p.data := by
    rw [hqe, string_data_mk]
    intro hm
    exact parts_no_comma s.data q hq (mem_trimL_sub ',' q hm)
  rw [PJ_data, splitCommaL_no_comma p.data hnc]
  have htr : (⟨trimL p.data⟩ : String) = p := by
    rw [hqe, string_data_mk]
    exact congrArg String.mk (trimL_idem q)
  simp [htr, hne]

/-- Parsing the comma-join of a list of strings splits back into the
individual parses. -/
theorem PJ_join (L : List String) : PJ (joinCommaS L) = L.flatMap PJ := by
  induction L with
  | nil => decide
  | cons x t ih =>
    match t with
    | [] =>
      show PJ (joinCommaS [x]) = PJ x ++ [].flatMap PJ
      have : joinCommaS [x] = x := rfl
      rw [this]
      simp
    | y :: t' =>
      have hdata : (joinCommaS (x :: y :: t')).data
          = x.data ++ ',' :: (joinCommaS (y :: t')).data := rfl
      rw [List.flatMap_cons, ← ih]
      rw [PJ_data, PJ_data, PJ_data, hdata, splitCommaL_append]
      rw [List.map_append, List.filter_append]

theorem flatMap_PJ_canonical (l : List String) (h : ∀ p ∈ l, PJ p = [p]) :
    l.flatMap PJ = l := by
  induction l with
  | nil => rfl
  | cons x t ih =>
    rw [List.flatMap_cons, h x (List.mem_cons_self x t),
      ih (fun p hp => h p (List.mem_cons_of_mem x hp))]
    rfl

theorem flatMap_PJ_idem (L : List String) :
    (L.flatMap PJ).flatMap PJ = L.flatMap PJ := by
  induction L with
  | nil => rfl
  | cons x t ih =>
    rw [List.flatMap_cons, List.flatMap_append, ih,
      flatMap_PJ_canonical (PJ x) (fun p hp => PJ_part_canonical x p hp)]

/-! ## Norms of parsed parts depend only on the norm of the string -/

theorem PJ_map_norm (s : String) :
    (PJ s).map lowerTrimS
      = (((splitCommaL s.data).map (fun q => trimL (lowerL q))).filter
          (fun q => !isEmptySn (⟨q⟩ : String))).map (fun q => (⟨q⟩ : String)) := by
  rw [PJ_data]
  rw [List.filter_map, List.map_map, List.filter_map, List.map_map]
  have e1 : (lowerTrimS ∘ fun q => (⟨trimL q⟩ : String))
      = (fun q => (⟨q⟩ : String)) ∘ (fun q => trimL (lowerL q)) := by
    funext q
    show lowerTrimS ⟨trimL q⟩ = ⟨trimL (lowerL q)⟩
    rw [lowerTrimS_mk]
    refine congrArg String.mk ?_
    rw [lowerL_trimL, trimL_idem, ← lowerL_trimL]
  have e2 : ((fun l => !isEmptyS l) ∘ fun q => (⟨trimL q⟩ : String))
      = (fun q => !isEmptySn (⟨q⟩ : String)) ∘ (fun q => trimL (lowerL q)) := by
    funext q
    show (!isEmptyS ⟨trimL q⟩) = !isEmptySn ⟨trimL (lowerL q)⟩
    have : isEmptyS (⟨trimL q⟩ : String) = isEmptySn (⟨trimL (lowerL q)⟩ : String) := by
      rw [isEmptyS_eq, lowerTrimS_mk]
      refine congrArg isEmptySn (congrArg String.mk ?_)
      rw [lowerL_trimL, trimL_idem, ← lowerL_trimL]
    rw [this]
  rw [e1, e2]

theorem key_map_g (d : List Char) :
    (splitCommaL (trimL (lowerL d))).map (fun q => trimL (lowerL q))
      = (splitCommaL d).map (fun q => trimL (lowerL q)) := by
  have e0 : ∀ (M : List (List Char)), M.map (fun q => trimL (lowerL q))
      = (M.map lowerL).map trimL := by
    intro M
    rw [List.map_map]
    rfl
  rw [e0, e0, ← splitCommaL_lowerL, ← splitCommaL_lowerL]
  have e1 : lowerL (trimL (lowerL d)) = trimL (lowerL d) := by
    rw [lowerL_trimL, lowerL_idem]
  rw [e1, q_trim (lowerL d)]

/-- The norms of the parsed parts of `s` depend only on the norm of `s`. -/
theorem normParts_eq (s : String) :
    (PJ s).map lowerTrimS = (PJ (lowerTrimS s)).map lowerTrimS := by
  rw [PJ_map_norm, PJ_map_norm]
  have hdata : (lowerTrimS s).data = trimL (lowerL s.data) := rfl
  rw [hdata, key_map_g]

/-! ## The deduplication loop -/

/-- The seen-set of the dedup loop after processing a list from a given
seed (mirrors the guard of `dedupLinks` exactly). -/
def seenAfter : List String → List String → List String
  | [], s => s
  | x :: L, s =>
    if !isEmptyS x && !s.contains (lowerTrimS x) then
      seenAfter L (lowerTrimS x :: s)
    else seenAfter L s

theorem dedup_nil (s : List String) : dedupLinks [] s = [] := rfl

theorem dedup_cons (x : String) (L s : List String) :
    dedupLinks (x :: L) s
      = if !isEmptyS x && !s.contains (lowerTrimS x) then
          trimS x :: dedupLinks L (lowerTrimS x :: s)
        else dedupLinks L s := rfl

theorem seenAfter_cons (x : String) (L s : List String) :
    seenAfter (x :: L) s
      = if !isEmptyS x && !s.contains (lowerTrimS x) then
          seenAfter L (lowerTrimS x :: s)
        else seenAfter L s := rfl

theorem contains_iff (l : List String) (a : String) : l.contains a = true ↔ a ∈ l := by
  simp [List.contains]

theorem seenAfter_mem (L : List String) (s : List String) (a : String) (h : a ∈ s) :
    a ∈ seenAfter L s := by
  induction L generalizing s with
  | nil => exact h
  | cons x t ih =>
    rw [seenAfter_cons]
    by_cases hg : (!isEmptyS x && !s.contains (lowerTrimS x)) = true
    · rw [if_pos hg]
      exact ih _ (List.mem_cons_of_mem _ h)
    · rw [if_neg hg]
      exact ih _ h

theorem seenAfter_contains (L : List String) (s : List String) (a : String)
    (h : s.contains a = true) : (seenAfter L s).contains a = true :=
  (contains_iff _ _).mpr (seenAfter_mem L s a ((contains_iff _ _).mp h))

theorem dedup_append (A B s : List String) :
    dedupLinks (A ++ B) s = dedupLinks A s ++ dedupLinks B (seenAfter A s) := by
  induction A generalizing s with
  | nil => rfl
  | cons x t ih =>
    rw [List.cons_append, dedup_cons, dedup_cons, seenAfter_cons]
    by_cases hg : (!isEmptyS x && !s.contains (lowerTrimS x)) = true
    · rw [if_pos hg, if_pos hg, if_pos hg, ih]
      rfl
    · rw [if_neg hg, if_neg hg, if_neg hg, ih]

theorem seenAfter_covers (L : List String) (s : List String) (x : String)
    (hx : x ∈ L) (hne : isEmptyS x = false) :
    (seenAfter L s).contains (lowerTrimS x) = true := by
  induction L generalizing s with
  | nil => simp at hx
  | cons y t ih =>
    rw [seenAfter_cons]
    by_cases hg : (!isEmptyS y && !s.contains (lowerTrimS y)) = true
    · rw [if_pos hg]
      rcases List.mem_cons.mp hx with rfl | hx'
      · exact seenAfter_contains t _ _
          ((contains_iff _ _).mpr (List.mem_cons_self _ _))
      · exact ih _ hx'
    · rw [if_neg hg]
      rcases List.mem_cons.mp hx with rfl | hx'
      · have : s.contains (lowerTrimS x) = true := by
          rw [hne] at hg
          simpa using hg
        exact seenAfter_contains t _ _ this
      · exact ih _ hx'

theorem dedup_drop_covered (P M s : List String)
    (h : ∀ p ∈ P, isEmptyS p = false ∧ s.contains (lowerTrimS p) = true) :
    dedupLinks (P ++ M) s = dedupLinks M s := by
  induction P with
  | nil => rfl
  | cons p t ih =>
    rw [List.cons_append, dedup_cons]
    obtain ⟨h1, h2⟩ := h p (List.mem_cons_self _ _)
    rw [if_neg (by rw [h1, h2]; simp)]
    exact ih (fun q hq => h q (List.mem_cons_of_mem p hq))

theorem dedup_all_dropped (L s : List String)
    (h : ∀ x ∈ L, isEmptyS x = true ∨ s.contains (lowerTrimS x) = true) :
    dedupLinks L s = [] := by
  induction L with
  | nil => rfl
  | cons x t ih =>
    rw [dedup_cons]
    rcases h x (List.mem_cons_self _ _) with h1 | h1
    · rw [if_neg (by rw [h1]; simp)]
      exact ih (fun q hq => h q (List.mem_cons_of_mem x hq))
    · rw [if_neg (by rw [h1]; simp)]
      exact ih (fun q hq => h q (List.mem_cons_of_mem x hq))

/-- Transfer of part-norm coverage along equal norm-part lists. -/
theorem covered_of_normParts (x : String) (sD : List String)
    (h : ∀ q ∈ PJ (lowerTrimS x), sD.contains (lowerTrimS q) = true) :
    ∀ p ∈ PJ x, sD.contains (lowerTrimS p) = true := by
  intro p hp
  have h1 : lowerTrimS p ∈ (PJ x).map lowerTrimS := List.mem_map_of_mem _ hp
  rw [normParts_eq] at h1
  obtain ⟨q, hq, hqe⟩ := List.mem_map.mp h1
  rw [← hqe]
  exact h q hq

/-- The other direction of the same transfer. -/
theorem covered_of_normParts' (x : String) (sD : List String)
    (h : ∀ q ∈ PJ x, sD.contains (lowerTrimS q) = true) :
    ∀ p ∈ PJ (lowerTrimS x), sD.contains (lowerTrimS p) = true := by
  intro p hp
  have h1 : lowerTrimS p ∈ (PJ (lowerTrimS x)).map lowerTrimS := List.mem_map_of_mem _ hp
  rw [← normParts_eq] at h1
  obtain ⟨q, hq, hqe⟩ := List.mem_map.mp h1
  rw [← hqe]
  exact h q hq

/-- **Inner-dedup erasure.** Re-parsing and re-deduplicating the output
of a deduplication pass gives the same result as re-parsing the
un-deduplicated list, provided every norm already recorded in the inner
seed has the norms of its parse parts recorded in the outer seed. -/
theorem main_erase (T : List String) (L : List String) :
    ∀ sR sD : List String,
      (∀ n, sR.contains n = true → ∀ p ∈ PJ n, sD.contains (lowerTrimS p) = true) →
      dedupLinks ((dedupLinks L sR).flatMap PJ ++ T) sD
        = dedupLinks (L.flatMap PJ ++ T) sD := by
  induction L with
  | nil => intro sR sD _; rfl
  | cons x L' ih =>
    intro sR sD hinv
    rw [dedup_cons]
    by_cases hg : (!isEmptyS x && !sR.contains (lowerTrimS x)) = true
    · -- the inner dedup keeps x (emitting `trimS x`)
      rw [if_pos hg, List.flatMap_cons, List.flatMap_cons, PJ_trimS, List.append_assoc,
        List.append_assoc]
      have hinv' : ∀ n, (lowerTrimS x :: sR).contains n = true →
          ∀ p ∈ PJ n, (seenAfter (PJ x) sD).contains (lowerTrimS p) = true := by
        intro n hn p hp
        rcases List.mem_cons.mp ((contains_iff _ _).mp hn) with rfl | hn'
        · exact covered_of_normParts' x (seenAfter (PJ x) sD)
            (fun q hq => seenAfter_covers (PJ x) sD q hq (PJ_mem_not_empty x q hq)) p hp
        · exact seenAfter_contains _ _ _ (hinv n ((contains_iff _ _).mpr hn') p hp)
      have e1 := dedup_append (PJ x)
        ((dedupLinks L' (lowerTrimS x :: sR)).flatMap PJ ++ T) sD
      have e2 := dedup_append (PJ x) (L'.flatMap PJ ++ T) sD
      rw [e1, e2, ih (lowerTrimS x :: sR) (seenAfter (PJ x) sD) hinv']
    · -- the inner dedup drops x
      rw [if_neg hg, List.flatMap_cons, List.append_assoc]
      by_cases hE : isEmptyS x = true
      · rw [PJ_empty x hE, List.nil_append]
        exact ih sR sD hinv
      · have hE' : isEmptyS x = false := by simpa using hE
        have hcont : sR.contains (lowerTrimS x) = true := by
          rw [hE'] at hg
          simpa using hg
        rw [dedup_drop_covered (PJ x) (L'.flatMap PJ ++ T) sD
          (fun p hp => ⟨PJ_mem_not_empty x p hp,
            covered_of_normParts x sD
              (fun q hq => hinv (lowerTrimS x) hcont q hq) p hp⟩)]
        exact ih sR sD hinv

/-! ## Assembly: idempotence and canon-level associativity -/

theorem main_erase_nil (L : List String) (T : List String) (sD : List String) :
    dedupLinks ((dedupLinks L []).flatMap PJ ++ T) sD
      = dedupLinks (L.flatMap PJ ++ T) sD := by
  refine main_erase T L [] sD ?_
  intro n hn
  simp [List.contains] at hn

/-- The canonical link list of a combined string, computed directly from
the two sides' items. -/
theorem canon_combine (X Y : Option MetaValue) :
    canonLinks (combineLinkStrings X Y)
      = dedupLinks ((linkItems X ++ linkItems Y).flatMap PJ) [] := by
  unfold canonLinks combineLinkStrings
  rw [linkItems_str, PJ_join]
  have h := main_erase_nil (linkItems X ++ linkItems Y) [] []
  rw [List.append_nil, List.append_nil] at h
  exact h

/-- Canon-level associativity of the link combiner. -/
theorem combine_assoc_canon (a b c : Option MetaValue) :
    canonLinks (combineLinkStrings (some (.str (combineLinkStrings a b))) c)
      = canonLinks (combineLinkStrings a (some (.str (combineLinkStrings b c)))) := by
  rw [canon_combine, canon_combine, linkItems_str, linkItems_str]
  unfold combineLinkStrings
  rw [PJ_join, PJ_join]
  rw [List.flatMap_append, List.flatMap_append, flatMap_PJ_idem, flatMap_PJ_idem]
  -- LHS: D (F (D (A ++ B) []) ++ F C) [];  RHS: D (F A ++ F (D (B ++ C) [])) []
  have hL := main_erase_nil (linkItems a ++ linkItems b) ((linkItems c).flatMap PJ) []
  rw [hL, List.flatMap_append]
  have hR1 := dedup_append ((linkItems a).flatMap PJ)
    ((dedupLinks (linkItems b ++ linkItems c) []).flatMap PJ) []
  rw [hR1]
  have hR2 := main_erase_nil (linkItems b ++ linkItems c) []
    (seenAfter ((linkItems a).flatMap PJ) [])
  rw [List.append_nil, List.append_nil] at hR2
  rw [hR2, List.flatMap_append]
  have hR3 := dedup_append ((linkItems a).flatMap PJ)
    ((linkItems b).flatMap PJ ++ (linkItems c).flatMap PJ) []
  rw [← hR3, ← List.append_assoc]

/-- String-level idempotence of the link combiner: combining a link
value with itself gives the same string as combining it with nothing. -/
theorem combine_self (a : Option MetaValue) :
    combineLinkStrings a a = combineLinkStrings a none := by
  unfold combineLinkStrings
  refine congrArg joinCommaS ?_
  show dedupLinks (linkItems a ++ linkItems a) [] = dedupLinks (linkItems a ++ []) []
  rw [List.append_nil, dedup_append]
  have h2 : dedupLinks (linkItems a) (seenAfter (linkItems a) []) = [] := by
    refine dedup_all_dropped _ _ ?_
    intro x hx
    by_cases hE : isEmptyS x = true
    · exact Or.inl hE
    · exact Or.inr (seenAfter_covers (linkItems a) [] x hx (by simpa using hE))
  rw [h2, List.append_nil]

/-- **C5.** The link combiner is idempotent (combining a link value with
itself yields the very same string as the value alone) and associative at
the level of the links contained in the result (the canonical re-parsed,
re-deduplicated link list of `combine(combine(a,b),c)` equals that of
`combine(a,combine(b,c))`, preserving first-seen casing and
existing-then-incoming order); and combining `{"a.com"}` with
`{"a.com","b.com"}` yields exactly `"a.com,b.com"`. -/
theorem link_combiner_idempotent_associative :
    (∀ a : Option MetaValue, combineLinkStrings a a = combineLinkStrings a none)
    ∧ (∀ a b c : Option MetaValue,
        canonLinks (combineLinkStrings (some (.str (combineLinkStrings a b))) c)
          = canonLinks (combineLinkStrings a (some (.str (combineLinkStrings b c)))))
    ∧ combineLinkStrings (some (.arr ["a.com"])) (some (.arr ["a.com", "b.com"]))
        = "a.com,b.com" :=
  ⟨combine_self, combine_assoc_canon, by decide⟩

end AccountsMaster
